import Mathlib

/-! Verification of dofactory: adapting factory functions to container providers.

A shallow embedding of `dofactory.go`.  The Go program works on reflected types and
values, so the embedding has three layers:

* `GoType` / `Data` / `Value`: a fragment of Go's type language, of the values stored
  in memory, and of `reflect.Value` (a type paired with its data, or the zero Value);
* `cast`, `getParametersNames`, `newFactory`: the signature validator;
* `factory.invokeIn`, `Value.Call`, `factory.provider`: parameter resolution and
  invocation, written in state-passing style over a `World` that carries the state of
  the container and the trace of external calls.

The two type-printing functions the program calls (`reflect.Type.String` through
`fmt`, and `typetostring.GetReflectType`) belong to other libraries and are taken as
the parameter `TypeNames`.  Where a claim is about the canonical names themselves, the
namer is modelled from the spec as `canonicalName`.  The container's lookup
`do.InvokeNamed` is the parameter `Injector`; the machine code of Go functions is the
parameter `Code`.
-/

namespace Dofactory

/-! ## Types -/

/-- Predeclared non-interface types of the fragment. -/
inductive Basic where
  | bool | int | int32 | int64 | string | complex128
  deriving DecidableEq, Repr

mutual
/-- Go types.  A defined type carries its (qualified) name, its underlying type and the
signatures of its declared methods; an interface lists the signatures of its methods.
The last input of a variadic function is a slice, as `reflect.Type.In` reports it.
Equality of terms is Go's type identity, which is what `==` on `reflect.Type` tests. -/
inductive GoType where
  | basic (b : Basic)
  | named (name : String) (underlying : GoType) (methods : List String)
  | pointer (elem : GoType)
  | slice (elem : GoType)
  | interface (methods : List String)
  | func (ins : GoTypes) (outs : GoTypes) (variadic : Bool)
  | struct (names : List String) (fields : GoTypes)
  deriving DecidableEq
/-- Sequences of Go types (parameter lists, result lists, field lists). -/
inductive GoTypes where
  | nil
  | cons (head : GoType) (tail : GoTypes)
  deriving DecidableEq
end

/-- The list of types of a type sequence. -/
def GoTypes.toList : GoTypes → List GoType
  | .nil => []
  | .cons t ts => t :: ts.toList

/-- The type sequence of a list of types. -/
def GoTypes.ofList : List GoType → GoTypes
  | [] => .nil
  | t :: ts => .cons t (GoTypes.ofList ts)

/-- The kinds of `reflect.Kind` that occur in the fragment. -/
inductive Kind where
  | invalid | bool | int | int32 | int64 | complex128 | string
  | pointer | slice | interface | func | struct
  deriving DecidableEq, Repr

/-- The kind of a type, `reflect.Type.Kind`: a defined type has the kind of its
underlying type. -/
def GoType.kind : GoType → Kind
  | .basic .bool => .bool
  | .basic .int => .int
  | .basic .int32 => .int32
  | .basic .int64 => .int64
  | .basic .string => .string
  | .basic .complex128 => .complex128
  | .named _ u _ => u.kind
  | .pointer _ => .pointer
  | .slice _ => .slice
  | .interface _ => .interface
  | .func _ _ _ => .func
  | .struct _ _ => .struct

/-- The underlying type. -/
def GoType.underlying : GoType → GoType
  | .named _ u _ => u.underlying
  | t => t

/-- Whether the type has a name (`hasName` of package reflect): predeclared and defined
types do, type literals do not. -/
def GoType.hasName : GoType → Bool
  | .basic _ => true
  | .named _ _ _ => true
  | _ => false

/-- The signature of a function type. -/
structure FuncSig where
  ins : List GoType
  outs : List GoType
  variadic : Bool
  deriving DecidableEq

/-- The signature read by `NumIn`, `In`, `NumOut`, `Out` and `IsVariadic`; `none` on a
type that is not of kind `Func`, where these methods of `reflect.Type` fail. -/
def GoType.sig : GoType → Option FuncSig
  | .func ins outs v => some ⟨ins.toList, outs.toList, v⟩
  | .named _ u _ => u.sig
  | _ => none

/-- The method set of a type.  A defined type with an interface as underlying type has
the methods of that interface, any other defined type has its declared methods, and a
pointer to such a defined type has them too. -/
def GoType.methodSet : GoType → List String
  | .interface ms => ms
  | .named _ u ms => if u.kind = Kind.interface then u.methodSet else ms
  | .pointer (.named _ u ms) =>
      if u.kind = Kind.interface ∨ u.kind = Kind.pointer then [] else ms
  | _ => []

/-- Whether type `v` implements the interface type `t` (`implements` of package reflect). -/
def implements (t v : GoType) : Bool :=
  t.kind = Kind.interface && t.methodSet.all (fun m => decide (m ∈ v.methodSet))

/-- The file-local `directlyAssignable` of package reflect: a value of type `v` can be
stored in a variable of type `t` without conversion. -/
def directlyAssignable (t v : GoType) : Bool :=
  if t = v then true
  else if (t.hasName && v.hasName) || t.kind ≠ v.kind then false
  else t.underlying = v.underlying

/-- The method `AssignableTo` of `reflect.Type`: `t.AssignableTo(u)`. -/
def GoType.AssignableTo (t u : GoType) : Bool :=
  directlyAssignable u t || implements u t

/-- The predeclared interface type `error`, `reflect.TypeOf((*error)(nil)).Elem()`. -/
def errorType : GoType :=
  .named "error" (.interface ["Error() string"]) []

/-- The empty interface `any`. -/
def anyType : GoType := .interface []

/-! ## Values -/

/-- What a variable holds.  A variable of interface type holds `iface none` (the nil
interface) or `iface (some (t, d))`, the dynamic type with its data; a function value
is `nil` or the identifier of its code; a nil pointer and a nil slice are `nil`. -/
inductive Data where
  | int (n : Int)
  | str (s : String)
  | bool (b : Bool)
  | nil
  | ptr (addr : Nat)
  | fn (id : Nat)
  | struct (fields : List Data)
  | iface (dyn : Option (GoType × Data))

/-- A value of static type `any` or `error`: nil, or a dynamic type with its data. -/
abbrev Any := Option (GoType × Data)

mutual
/-- The zero value of a type. -/
def zeroData : GoType → Data
  | .basic .bool => .bool false
  | .basic .string => .str ""
  | .basic _ => .int 0
  | .named _ u _ => zeroData u
  | .pointer _ => .nil
  | .slice _ => .nil
  | .interface _ => .iface none
  | .func _ _ _ => .nil
  | .struct _ fs => .struct (zeroDatas fs)
/-- The zero values of a sequence of types. -/
def zeroDatas : GoTypes → List Data
  | .nil => []
  | .cons t ts => zeroData t :: zeroDatas ts
end

/-- The ways the program can stop abnormally. -/
inductive Panic where
  /-- The call `panic(unexpected(...))` in `cast`, with its message. -/
  | message (s : String)
  /-- The method `reflect.Value.Type` on the zero Value. -/
  | typeOfZeroValue
  /-- The method `reflect.Value.Interface` on the zero Value. -/
  | interfaceOfZeroValue
  /-- One of `NumIn`, `In`, `NumOut`, `Out`, `IsVariadic` on a type that is not a function. -/
  | nonFuncType
  /-- The call `In(i)` with `i` out of bounds. -/
  | funcIndex
  /-- A `Call` on a Value that is not a function. -/
  | callNonFunc
  /-- A `Call` on a nil function. -/
  | callNilFunc
  /-- A `Call` with too few input arguments. -/
  | callTooFew
  /-- A `Call` with too many input arguments. -/
  | callTooMany
  /-- A `Call` using a zero Value argument. -/
  | callZeroValue
  /-- A `Call` using an argument of type `xt` as type `targ`. -/
  | callNotAssignable (xt targ : GoType)
  /-- A `Call` on a variadic function: outside the fragment (`cast` rejects them). -/
  | callVariadic
  /-- Index out of range on a slice. -/
  | indexOutOfRange
  /-- The called function did not return (it panicked). -/
  | raised

/-- A `reflect.Value`: the zero Value, or a type with the data of that type. -/
inductive Value where
  | zero
  | mk (typ : GoType) (data : Data)

/-- The method `Kind` of `reflect.Value`; the zero Value has kind `Invalid`. -/
def Value.Kind : Value → Kind
  | .zero => Kind.invalid
  | .mk t _ => t.kind

/-- The method `IsValid` of `reflect.Value`. -/
def Value.IsValid : Value → Bool
  | .zero => false
  | .mk _ _ => true

/-- The method `Type` of `reflect.Value`, which fails on the zero Value. -/
def Value.Type : Value → Except Panic GoType
  | .zero => .error Panic.typeOfZeroValue
  | .mk t _ => .ok t

/-- The method `Interface` of `reflect.Value`: the value as an `any`.  A Value of
interface kind yields the element inside the interface, any other Value is boxed with
its type. -/
def Value.Interface : Value → Except Panic Any
  | .zero => .error Panic.interfaceOfZeroValue
  | .mk t d =>
      if t.kind = Kind.interface then
        match d with
        | .iface a => .ok a
        | _ => .ok none
      else .ok (some (t, d))

/-- The function `reflect.ValueOf`: the concrete value stored in the interface; the zero Value for a
nil interface. -/
def reflectValueOf : Any → Value
  | none => Value.zero
  | some (t, d) => Value.mk t d

/-- The function `reflect.Zero`: a Value holding the zero value of the type. -/
def reflectZero (t : GoType) : Value := Value.mk t (zeroData t)

/-- The type assertion `x.(I)` to an interface type `I`, as the pair of its result and
its `ok` flag. -/
def assertInterface (I : GoType) (x : Any) : Any × Bool :=
  match x with
  | some (t, d) => if implements I t then (some (t, d), true) else (none, false)
  | none => (none, false)

/-- The type assertion `x.(T)` in its two-result form: the value and the `ok` flag.  On
failure the value is the zero value of `T`. -/
def typeAssert (T : GoType) (x : Any) : Data × Bool :=
  if T.kind = Kind.interface then
    ((Data.iface (assertInterface T x).1), (assertInterface T x).2)
  else
    match x with
    | some (t, d) => if t = T then (d, true) else (zeroData T, false)
    | none => (zeroData T, false)

/-- A Value holds a well-typed Go value: it is valid, and when its type is an interface
it holds nil or a dynamic type that implements the interface. -/
def Value.wellTyped : Value → Bool
  | .zero => false
  | .mk t d =>
      if t.kind = Kind.interface then
        match d with
        | .iface none => true
        | .iface (some (dt, _)) => implements t dt
        | _ => false
      else true

/-! ## The signature validator -/

/-- The two type printers of other libraries the program uses. -/
structure TypeNames where
  /-- The method `String` of `reflect.Type`, which `fmt` uses for the verb `%s`. -/
  typeString : GoType → String
  /-- The function `typetostring.GetReflectType`, the canonical type name. -/
  getReflectType : GoType → String

/-- The closure `unexpected` of `cast`:
`fmt.Sprintf("cannot use %s as Factory func() (%s[, error])", v, T)`. -/
def unexpected (nm : TypeNames) (T : GoType) (v : String) : String :=
  "cannot use " ++ v ++ " as Factory func() (" ++ nm.typeString T ++ "[, error])"

/-- The function `cast`: converts a `Factory` to a `reflect.Value`, checking its input
and output types.  The cases of the `switch` are tried in order; the case
`NumOut() == 2 && Out(1) == error` falls through to the body of `NumOut() == 1`. -/
def cast (nm : TypeNames) (T : GoType) (factory : Any) : Except Panic Value :=
  let factoryValue := reflectValueOf factory
  match factoryValue.Type with
  | .error p => .error p
  | .ok factoryType =>
    if factoryValue.Kind ≠ Kind.func then
      .error (Panic.message (unexpected nm T (nm.typeString factoryType)))
    else
      match factoryType.sig with
      | none => .error Panic.nonFuncType
      | some sg =>
        if sg.variadic then
          .error (Panic.message
            (unexpected nm T ("variadic " ++ nm.getReflectType factoryType)))
        else if (sg.outs.length = 2 ∧ sg.outs[1]? = some errorType)
            ∨ sg.outs.length = 1 then
          if sg.outs[0]? = some T then .ok factoryValue
          else .error (Panic.message (unexpected nm T (nm.getReflectType factoryType)))
        else .error (Panic.message (unexpected nm T (nm.getReflectType factoryType)))

/-- The function `getParametersNames`: the canonical names of the input parameters of a
function type, in declaration order. -/
def getParametersNames (nm : TypeNames) (factoryType : GoType) :
    Except Panic (List String) :=
  match factoryType.sig with
  | none => .error Panic.nonFuncType
  | some sg => .ok (sg.ins.map nm.getReflectType)

/-- The descriptor `factory[T]`: the embedded `reflect.Value` and the parameter names. -/
structure factory where
  Value : Value
  parametersNames : List String

/-- The function `newFactory`. -/
def newFactory (nm : TypeNames) (T : GoType) (_factory : Any) : Except Panic factory :=
  match cast nm T _factory with
  | .error p => .error p
  | .ok value =>
    match value.Type with
    | .error p => .error p
    | .ok factoryType =>
      match getParametersNames nm factoryType with
      | .error p => .error p
      | .ok names => .ok { Value := value, parametersNames := names }

/-! ## Parameter resolution and invocation -/

/-- The calls the program makes to code outside it. -/
inductive Event where
  /-- A named lookup `do.InvokeNamed[any](injector, name)`. -/
  | lookup (name : String)
  /-- A run of the code `fn` of a function on the arguments `args`. -/
  | call (fn : Nat) (args : List Value)

/-- The world the provider runs in: the state of the container (and of anything else
the wrapped function can touch) and the external calls made so far, oldest first. -/
structure World (σ : Type) where
  state : σ
  trace : List Event

/-- The container, `do.Injector`, at its boundary: the named lookup, which returns a
value and an error and may change the state of the container. -/
structure Injector (σ : Type) where
  invokeNamed : String → σ → (Any × Any) × σ

/-- The code of Go functions: run on its arguments in a state, the code with identifier
`id` returns `none` when it panics, or the memory of its results (slot `i` holds the
`i`-th result). -/
abbrev Code (σ : Type) := Nat → List Value → σ → Option (Nat → Data) × σ

/-- The call `do.InvokeNamed[any](injector, name)`, recorded in the trace. -/
def InvokeNamed {σ : Type} (injector : Injector σ) (name : String) (w : World σ) :
    (Any × Any) × World σ :=
  ((injector.invokeNamed name w.state).1,
    { state := (injector.invokeNamed name w.state).2,
      trace := w.trace ++ [Event.lookup name] })

/-- The method `In` of `reflect.Type`: the type of the `i`-th input parameter. -/
def GoType.In (t : GoType) (i : Nat) : Except Panic GoType :=
  match t.sig with
  | none => .error Panic.nonFuncType
  | some sg =>
    match sg.ins[i]? with
    | none => .error Panic.funcIndex
    | some ti => .ok ti

/-- The loop of `invokeIn`, at index `i` with the names still to look up. -/
def invokeInLoop {σ : Type} (fv : Value) (injector : Injector σ) :
    Nat → List String → List Value → World σ → Except Panic (List Value × Any) × World σ
  | _, [], values, w => (.ok (values, none), w)
  | i, name :: rest, values, w =>
    match (InvokeNamed injector name w).1.2 with
    | some e => (.ok ([], some e), (InvokeNamed injector name w).2)
    | none =>
      match (InvokeNamed injector name w).1.1 with
      | none =>
        match fv.Type with
        | .error p => (.error p, (InvokeNamed injector name w).2)
        | .ok ft =>
          match ft.In i with
          | .error p => (.error p, (InvokeNamed injector name w).2)
          | .ok ti =>
            invokeInLoop fv injector (i + 1) rest (values.set i (reflectZero ti))
              (InvokeNamed injector name w).2
      | some v =>
        invokeInLoop fv injector (i + 1) rest (values.set i (reflectValueOf (some v)))
          (InvokeNamed injector name w).2

/-- The method `invokeIn`: looks up the named parameters of the factory in the
container, as `reflect.Value`s.  It returns `(nil, err)` at the first lookup with an
error. -/
def factory.invokeIn {σ : Type} (f : factory) (injector : Injector σ) (w : World σ) :
    Except Panic (List Dofactory.Value × Any) × World σ :=
  invokeInLoop f.Value injector 0 f.parametersNames
    (List.replicate f.parametersNames.length Dofactory.Value.zero) w

/-- The conversion `assignTo` that `Call` applies to an argument for a parameter of
type `targ`: a concrete value passed for an interface parameter is boxed. -/
def assignTo (targ : GoType) : Value → Value
  | .zero => Value.zero
  | .mk xt d =>
      if targ.kind = Kind.interface ∧ xt.kind ≠ Kind.interface then
        Value.mk targ (Data.iface (some (xt, d)))
      else Value.mk targ d

/-- The first argument whose type is not assignable to the type of its parameter. -/
def firstNotAssignable : List GoType → List Value → Option (GoType × GoType)
  | targ :: targs, Value.mk xt _ :: xs =>
      if xt.AssignableTo targ then firstNotAssignable targs xs else some (xt, targ)
  | _ :: targs, Value.zero :: xs => firstNotAssignable targs xs
  | _, _ => none

/-- The method `Call` of `reflect.Value`: checks the arguments against the inputs of
the function type, runs the code and returns one Value per output of the function
type, each of the declared output type. -/
def Value.Call {σ : Type} (code : Code σ) (v : Value) (input : List Value) (w : World σ) :
    Except Panic (List Value) × World σ :=
  match v with
  | .zero => (.error Panic.callNonFunc, w)
  | .mk t d =>
    match t.sig with
    | none => (.error Panic.callNonFunc, w)
    | some sg =>
      match d with
      | .fn id =>
        if sg.variadic then (.error Panic.callVariadic, w)
        else if input.length < sg.ins.length then (.error Panic.callTooFew, w)
        else if input.length > sg.ins.length then (.error Panic.callTooMany, w)
        else if input.any (fun x => !x.IsValid) then (.error Panic.callZeroValue, w)
        else
          match firstNotAssignable sg.ins input with
          | some (xt, targ) => (.error (Panic.callNotAssignable xt targ), w)
          | none =>
            let args := List.zipWith assignTo sg.ins input
            let r := code id args w.state
            let w1 : World σ := { state := r.2, trace := w.trace ++ [Event.call id args] }
            match r.1 with
            | none => (.error Panic.raised, w1)
            | some frame =>
              (.ok (sg.outs.enum.map (fun it => Value.mk it.2 (frame it.1))), w1)
      | _ => (.error Panic.callNilFunc, w)

/-- The method `provider`: resolves the parameters, calls the factory and converts its
outputs to `(res T, err error)`.  On a lookup error the named results are returned as
they are: `res` is still the zero value of `T`. -/
def factory.provider {σ : Type} (T : GoType) (code : Code σ) (f : factory)
    (injector : Injector σ) (w : World σ) : Except Panic (Data × Any) × World σ :=
  match f.invokeIn injector w with
  | (.error p, w1) => (.error p, w1)
  | (.ok (_, some e), w1) => (.ok (zeroData T, some e), w1)
  | (.ok (input, none), w1) =>
    match f.Value.Call code input w1 with
    | (.error p, w2) => (.error p, w2)
    | (.ok out, w2) =>
      match out[0]? with
      | none => (.error Panic.indexOutOfRange, w2)
      | some out0 =>
        match out0.Interface with
        | .error p => (.error p, w2)
        | .ok x0 =>
          if out.length = 2 then
            match out[1]? with
            | none => (.error Panic.indexOutOfRange, w2)
            | some out1 =>
              match out1.Interface with
              | .error p => (.error p, w2)
              | .ok x1 => (.ok ((typeAssert T x0).1, (assertInterface errorType x1).1), w2)
          else (.ok ((typeAssert T x0).1, none), w2)

/-- The function `ToProvider`: the method `provider` of the descriptor built by
`newFactory`. -/
def ToProvider {σ : Type} (nm : TypeNames) (T : GoType) (code : Code σ) (factory : Any) :
    Except Panic (Injector σ → World σ → Except Panic (Data × Any) × World σ) :=
  match newFactory nm T factory with
  | .error p => .error p
  | .ok f => .ok (f.provider T code)

/-! ## The run of the lookups

The container is a parameter, so the outcome of the lookups of a list of names is
described by running them in order, each in the state its predecessor left. -/

/-- The state of the container after the lookups of the names, made in order. -/
def lookupsState {σ : Type} (injector : Injector σ) : List String → σ → σ
  | [], s => s
  | n :: ns, s => lookupsState injector ns (injector.invokeNamed n s).2

/-- Every lookup of the names, made in order from the state, returns a nil error. -/
def allResolve {σ : Type} (injector : Injector σ) : List String → σ → Prop
  | [], _ => True
  | n :: ns, s =>
      (injector.invokeNamed n s).1.2 = none ∧ allResolve injector ns (injector.invokeNamed n s).2

/-- The values returned by the lookups of the names, made in order from the state. -/
def lookupValues {σ : Type} (injector : Injector σ) : List String → σ → List Any
  | [], _ => []
  | n :: ns, s =>
      (injector.invokeNamed n s).1.1 :: lookupValues injector ns (injector.invokeNamed n s).2

/-- The argument that `invokeIn` stores for a looked-up value `v` at a parameter of
type `ti`. -/
def argumentOf (ti : GoType) (v : Any) : Value :=
  match v with
  | none => reflectZero ti
  | some x => reflectValueOf (some x)

/-- The runs of function code recorded in a trace, oldest first. -/
def callsOf : List Event → List (Nat × List Value)
  | [] => []
  | Event.call fn args :: es => (fn, args) :: callsOf es
  | Event.lookup _ :: es => callsOf es

/-! ## The canonical namer -/

/-- A natural number in unary, closed by `0`. -/
def encodeNat (n : Nat) : List Char := List.replicate n '1' ++ ['0']

/-- A string, preceded by its length. -/
def encodeString (s : String) : List Char := encodeNat s.data.length ++ s.data

/-- A list of strings: each is announced by `,`, the list is closed by `.`. -/
def encodeStrings : List String → List Char
  | [] => ['.']
  | s :: ss => ',' :: (encodeString s ++ encodeStrings ss)

/-- One letter for each predeclared type. -/
def encodeBasic : Basic → Char
  | .bool => 'o'
  | .int => 'i'
  | .int32 => 'j'
  | .int64 => 'l'
  | .string => 'a'
  | .complex128 => 'c'

mutual
/-- The full structural description of a type, as a prefix code. -/
def encodeType : GoType → List Char
  | .basic b => ['b', encodeBasic b]
  | .named n u ms => 'n' :: (encodeString n ++ (encodeType u ++ encodeStrings ms))
  | .pointer e => '*' :: encodeType e
  | .slice e => 's' :: encodeType e
  | .interface ms => 'I' :: encodeStrings ms
  | .func ins outs v =>
      'f' :: (if v then 'v' else 'x') :: (encodeTypes ins ++ encodeTypes outs)
  | .struct ns fs => 'S' :: (encodeStrings ns ++ encodeTypes fs)
/-- The description of a sequence of types: each is announced by `(`, the sequence is
closed by `)`. -/
def encodeTypes : GoTypes → List Char
  | .nil => [')']
  | .cons t ts => '(' :: (encodeType t ++ encodeTypes ts)
end

/-- Modelled from the spec: the Canonical Type Namer `typetostring.GetReflectType`, a
library that is not part of this repository.  The spec asks for a deterministic, total
function from reflected types to strings that names a composite type by its full
structural description and distinguishes a named type from its underlying type and a
pointer type from the type it points to.  The model writes that description in a
prefix code; its text is not the text the library prints. -/
def canonicalName (t : GoType) : String := String.mk (encodeType t)

/-! ## Concrete inputs -/

mutual
/-- A printer of types in the manner of `reflect.Type.String`. -/
def showType : GoType → String
  | .basic .bool => "bool"
  | .basic .int => "int"
  | .basic .int32 => "int32"
  | .basic .int64 => "int64"
  | .basic .string => "string"
  | .basic .complex128 => "complex128"
  | .named n _ _ => n
  | .pointer e => "*" ++ showType e
  | .slice e => "[]" ++ showType e
  | .interface ms =>
      if ms = [] then "interface {}" else "interface \x7b " ++ "; ".intercalate ms ++ " \x7d"
  | .func ins outs v => "func(" ++ showParams v ins ++ ")" ++ showResults outs
  | .struct _ fs => "struct \x7b" ++ showFields fs ++ "\x7d"
/-- The printer on the inputs of a function type, variadic or not. -/
def showParams : Bool → GoTypes → String
  | _, .nil => ""
  | true, .cons (.slice e) .nil => "..." ++ showType e
  | _, .cons t .nil => showType t
  | v, .cons t ts => showType t ++ ", " ++ showParams v ts
/-- The printer on the outputs of a function type. -/
def showResults : GoTypes → String
  | .nil => ""
  | .cons t .nil => " " ++ showType t
  | .cons t ts => " (" ++ showType t ++ ", " ++ showParams false ts ++ ")"
/-- The printer on the fields of a struct type. -/
def showFields : GoTypes → String
  | .nil => ""
  | .cons t ts => " " ++ showType t ++ ";" ++ showFields ts
end

/-- Type printers for the concrete inputs. -/
def exNames : TypeNames := ⟨showType, showType⟩

/-- The type `int`. -/
def intT : GoType := .basic .int

/-- The type `string`. -/
def stringT : GoType := .basic .string

/-- The function type with the given inputs and outputs, not variadic. -/
def funcT (ins outs : List GoType) : GoType :=
  .func (GoTypes.ofList ins) (GoTypes.ofList outs) false

/-- A defined type `type MyErr string` with a method `Error() string`: a concrete type
that implements `error`. -/
def myErrT : GoType := .named "MyErr" (.basic .string) ["Error() string"]

/-- The dynamic type of the errors in the concrete inputs, `*errors.errorString`. -/
def errorStringT : GoType :=
  .pointer (.named "errors.errorString" (.struct ["s"] (.cons stringT .nil))
    ["Error() string"])

/-- A container that holds values registered by name and that lookups do not change:
a lookup of a name that is not registered returns an error. -/
def exInjector : Injector (List (String × Any)) where
  invokeNamed name s :=
    match s.lookup name with
    | some v => ((v, none), s)
    | none => ((none, some (errorStringT, Data.str ("could not find service " ++ name))), s)

/-- The code of four functions: number 0 returns `5` and the error `ERROR`, number 1
returns its first argument and a nil error, number 2 returns `5` and a nil error,
number 3 returns nil interfaces; any other code panics. -/
def exCode : Code (List (String × Any))
  | 0, _, s =>
      (some (fun i =>
        if i = 0 then Data.int 5 else Data.iface (some (errorStringT, Data.str "ERROR"))), s)
  | 1, Value.mk _ d :: _, s => (some (fun i => if i = 0 then d else Data.iface none), s)
  | 2, _, s => (some (fun i => if i = 0 then Data.int 5 else Data.iface none), s)
  | 3, _, s => (some (fun _ => Data.iface none), s)
  | _, _, s => (none, s)

/-- A world with the given registered values and an empty trace. -/
def exWorld (s : List (String × Any)) : World (List (String × Any)) :=
  { state := s, trace := [] }

/-- The descriptor of `func(int, string) (int, error)` with the code number 2. -/
def exDescriptor : factory :=
  { Value := Value.mk (funcT [intT, stringT] [intT, errorType]) (Data.fn 2),
    parametersNames := ["int", "string"] }

/-! ## Facts about the validator -/

theorem GoType.sig_eq_none_iff : ∀ t : GoType, t.sig = none ↔ t.kind ≠ Kind.func
  | .basic b => by cases b <;> simp [GoType.sig, GoType.kind]
  | .named _ u _ => by
      have ih := GoType.sig_eq_none_iff u
      simpa [GoType.sig, GoType.kind] using ih
  | .pointer _ => by simp [GoType.sig, GoType.kind]
  | .slice _ => by simp [GoType.sig, GoType.kind]
  | .interface _ => by simp [GoType.sig, GoType.kind]
  | .func _ _ _ => by simp [GoType.sig, GoType.kind]
  | .struct _ _ => by simp [GoType.sig, GoType.kind]

theorem GoType.kind_of_sig {t : GoType} {sg : FuncSig} (h : t.sig = some sg) :
    t.kind = Kind.func := by
  by_contra hk
  rw [(GoType.sig_eq_none_iff t).mpr hk] at h
  cases h

/-- The two conditions of the `switch` in `cast` that lead to `return`, read as a
condition on the list of outputs. -/
theorem outs_shape (outs : List GoType) (T : GoType) :
    (((outs.length = 2 ∧ outs[1]? = some errorType) ∨ outs.length = 1)
        ∧ outs[0]? = some T)
      ↔ (outs = [T] ∨ outs = [T, errorType]) := by
  rcases outs with _ | ⟨a, _ | ⟨b, _ | ⟨c, r⟩⟩⟩ <;> simp
  · constructor
    · rintro ⟨h1, h2⟩; exact ⟨h2, h1⟩
    · rintro ⟨h1, h2⟩; exact ⟨h2, h1⟩

/-- The function `cast` on a candidate with a dynamic type, as a decision on its shape. -/
theorem cast_some (nm : TypeNames) (T t : GoType) (d : Data) :
    cast nm T (some (t, d)) =
      if t.kind ≠ Kind.func then
        .error (Panic.message (unexpected nm T (nm.typeString t)))
      else
        match t.sig with
        | none => .error Panic.nonFuncType
        | some sg =>
          if sg.variadic then
            .error (Panic.message (unexpected nm T ("variadic " ++ nm.getReflectType t)))
          else if sg.outs = [T] ∨ sg.outs = [T, errorType] then .ok (Value.mk t d)
          else .error (Panic.message (unexpected nm T (nm.getReflectType t))) := by
  simp only [cast, reflectValueOf, Value.Type, Value.Kind]
  split
  · rfl
  · split
    · rfl
    · rename_i sg _
      by_cases hv : sg.variadic = true
      · simp [hv]
      · have hs := outs_shape sg.outs T
        by_cases h1 : (sg.outs.length = 2 ∧ sg.outs[1]? = some errorType)
            ∨ sg.outs.length = 1
        · by_cases h0 : sg.outs[0]? = some T
          · have := hs.mp ⟨h1, h0⟩
            simp [hv, h1, h0, this]
          · have : ¬ (sg.outs = [T] ∨ sg.outs = [T, errorType]) :=
              fun h => h0 (hs.mpr h).2
            simp [hv, h1, h0, this]
        · have : ¬ (sg.outs = [T] ∨ sg.outs = [T, errorType]) :=
            fun h => h1 (hs.mpr h).1
          simp [hv, h1, this]

/-- The function `cast` on a function type with a known signature. -/
theorem cast_sig (nm : TypeNames) (T t : GoType) (d : Data) (sg : FuncSig)
    (hsig : t.sig = some sg) :
    cast nm T (some (t, d)) =
      if sg.variadic then
        .error (Panic.message (unexpected nm T ("variadic " ++ nm.getReflectType t)))
      else if sg.outs = [T] ∨ sg.outs = [T, errorType] then .ok (Value.mk t d)
      else .error (Panic.message (unexpected nm T (nm.getReflectType t))) := by
  rw [cast_some]
  simp [GoType.kind_of_sig hsig, hsig]

/-- What `cast` accepts: functions that are not variadic and return `T` or
`(T, error)`; it returns the candidate as a `reflect.Value`. -/
theorem cast_ok_iff (nm : TypeNames) (T : GoType) (candidate : Any) (v : Value) :
    cast nm T candidate = .ok v ↔
      ∃ t d sg, candidate = some (t, d) ∧ v = Value.mk t d ∧ t.sig = some sg
        ∧ sg.variadic = false ∧ (sg.outs = [T] ∨ sg.outs = [T, errorType]) := by
  constructor
  · intro h
    rcases candidate with _ | ⟨t, d⟩
    · simp [cast, reflectValueOf, Value.Type] at h
    · cases hsig : t.sig with
      | none =>
        rw [cast_some] at h
        simp [(GoType.sig_eq_none_iff t).mp hsig] at h
      | some sg =>
        rw [cast_sig nm T t d sg hsig] at h
        by_cases hv : sg.variadic = true
        · simp [hv] at h
        · by_cases ho : sg.outs = [T] ∨ sg.outs = [T, errorType]
          · simp [hv, ho] at h
            exact ⟨t, d, sg, rfl, h.symm, hsig, by simpa using hv, ho⟩
          · simp [hv, ho] at h
  · rintro ⟨t, d, sg, rfl, rfl, hsig, hv, ho⟩
    rw [cast_sig nm T t d sg hsig]
    simp [hv, ho]

/-- What `newFactory` builds: the Value of an accepted function and one canonical name
per input. -/
theorem newFactory_ok (nm : TypeNames) (T : GoType) (candidate : Any) (f : factory)
    (h : newFactory nm T candidate = .ok f) :
    ∃ t d sg, candidate = some (t, d) ∧ f.Value = Value.mk t d ∧ t.sig = some sg
      ∧ sg.variadic = false ∧ (sg.outs = [T] ∨ sg.outs = [T, errorType])
      ∧ f.parametersNames = sg.ins.map nm.getReflectType := by
  unfold newFactory at h
  cases hc : cast nm T candidate with
  | error p => simp [hc] at h
  | ok v =>
    obtain ⟨t, d, sg, rfl, rfl, hsig, hv, ho⟩ := (cast_ok_iff nm T candidate v).mp hc
    simp only [hc, Value.Type, getParametersNames, hsig, Except.ok.injEq] at h
    subst h
    exact ⟨t, d, sg, rfl, rfl, hsig, hv, ho, rfl⟩

/-! ## Facts about parameter resolution -/

theorem lookupValues_length {σ : Type} (injector : Injector σ) :
    ∀ (names : List String) (s : σ), (lookupValues injector names s).length = names.length
  | [], _ => rfl
  | n :: ns, s => by simp [lookupValues, lookupValues_length injector ns]

theorem invokeInLoop_append {σ : Type} (injector : Injector σ) (ft : GoType) (d : Data)
    (sg : FuncSig) (hsig : ft.sig = some sg) :
    ∀ (pre rest : List String) (i : Nat) (values : List Value) (w : World σ),
      allResolve injector pre w.state → i + pre.length ≤ sg.ins.length →
      i + pre.length ≤ values.length →
      ∃ values' : List Value,
        invokeInLoop (Value.mk ft d) injector i (pre ++ rest) values w
          = invokeInLoop (Value.mk ft d) injector (i + pre.length) rest values'
              { state := lookupsState injector pre w.state,
                trace := w.trace ++ pre.map Event.lookup }
        ∧ values'.length = values.length
        ∧ (∀ j, j < i → values'[j]? = values[j]?)
        ∧ (∀ j v ti, (lookupValues injector pre w.state)[j]? = some v →
            sg.ins[i + j]? = some ti → values'[i + j]? = some (argumentOf ti v)) := by
  intro pre
  induction pre with
  | nil =>
    intro rest i values w _ _ _
    exact ⟨values, by simp [lookupsState], rfl, fun _ _ => rfl, by simp [lookupValues]⟩
  | cons n pre ih =>
    intro rest i values w hall hins hvals
    obtain ⟨herr, hall1⟩ := hall
    simp only [List.length_cons] at hins hvals
    have hi : i < sg.ins.length := by omega
    have hiv : i < values.length := by omega
    obtain ⟨ti, hti⟩ : ∃ ti, sg.ins[i]? = some ti := ⟨sg.ins[i], List.getElem?_eq_getElem hi⟩
    -- the world after the lookup of `n`
    have hw1s : (InvokeNamed injector n w).2.state = (injector.invokeNamed n w.state).2 := rfl
    have hw1t : (InvokeNamed injector n w).2.trace = w.trace ++ [Event.lookup n] := rfl
    obtain ⟨values', hloop, hlen, hlow, hat⟩ :=
      ih rest (i + 1) (values.set i (argumentOf ti (injector.invokeNamed n w.state).1.1))
        (InvokeNamed injector n w).2 (by rw [hw1s]; exact hall1) (by omega)
        (by simp; omega)
    refine ⟨values', ?_, by simpa using hlen, ?_, ?_⟩
    · have hstep : invokeInLoop (Value.mk ft d) injector i (n :: (pre ++ rest)) values w
          = invokeInLoop (Value.mk ft d) injector (i + 1) (pre ++ rest)
              (values.set i (argumentOf ti (injector.invokeNamed n w.state).1.1))
              (InvokeNamed injector n w).2 := by
        have herr' : (InvokeNamed injector n w).1.2 = none := herr
        have hval' : (InvokeNamed injector n w).1.1 = (injector.invokeNamed n w.state).1.1 := rfl
        rw [invokeInLoop]
        simp only [herr', hval']
        cases hv : (injector.invokeNamed n w.state).1.1 with
        | none => simp [Value.Type, GoType.In, hsig, hti, argumentOf]
        | some x => simp [argumentOf]
      rw [List.cons_append, hstep, hloop, hw1s, hw1t]
      have : i + 1 + pre.length = i + (n :: pre).length := by simp; omega
      rw [this]
      simp [lookupsState]
    · intro j hj
      rw [hlow j (by omega), List.getElem?_set_ne (by omega)]
    · intro j v tj hv htj
      cases j with
      | zero =>
        simp only [lookupValues, List.getElem?_cons_zero, Option.some.injEq] at hv
        simp only [Nat.add_zero] at htj ⊢
        rw [hti] at htj
        cases htj
        rw [hlow i (by omega), List.getElem?_set_self hiv, hv]
      | succ j =>
        simp only [lookupValues, List.getElem?_cons_succ] at hv
        have := hat j v tj (by rw [hw1s]; exact hv) (by rw [← htj]; congr 1; omega)
        rw [← this]; congr 1; omega

theorem invokeInLoop_fail {σ : Type} (injector : Injector σ) (fv : Value) (i : Nat)
    (n : String) (post : List String) (values : List Value) (w : World σ) (e : GoType × Data)
    (hfail : (injector.invokeNamed n w.state).1.2 = some e) :
    invokeInLoop fv injector i (n :: post) values w
      = (.ok ([], some e),
          { state := (injector.invokeNamed n w.state).2,
            trace := w.trace ++ [Event.lookup n] }) := by
  have herr : (InvokeNamed injector n w).1.2 = some e := hfail
  rw [invokeInLoop]
  simp only [herr]
  rfl

/-- The run of `invokeIn` when every lookup succeeds. -/
theorem invokeIn_ok {σ : Type} (injector : Injector σ) (f : factory) (ft : GoType)
    (d : Data) (sg : FuncSig) (w : World σ) (hval : f.Value = Value.mk ft d)
    (hsig : ft.sig = some sg) (hlen : f.parametersNames.length ≤ sg.ins.length)
    (hall : allResolve injector f.parametersNames w.state) :
    ∃ values : List Value,
      f.invokeIn injector w
        = (.ok (values, none),
            { state := lookupsState injector f.parametersNames w.state,
              trace := w.trace ++ f.parametersNames.map Event.lookup })
      ∧ values.length = f.parametersNames.length
      ∧ (∀ (j : Nat) v ti, (lookupValues injector f.parametersNames w.state)[j]? = some v →
          sg.ins[j]? = some ti → values[j]? = some (argumentOf ti v)) := by
  obtain ⟨values, hloop, hl, -, hat⟩ :=
    invokeInLoop_append injector ft d sg hsig f.parametersNames [] 0
      (List.replicate f.parametersNames.length Value.zero) w hall (by simpa using hlen)
      (by simp)
  refine ⟨values, ?_, by simpa using hl, ?_⟩
  · unfold factory.invokeIn
    rw [hval]
    rw [List.append_nil] at hloop
    rw [hloop, invokeInLoop]
  · intro j v ti hv hti
    simpa using hat j v ti hv (by simpa using hti)

/-- The run of `invokeIn` when the lookup after the prefix `pre` is the first to fail. -/
theorem invokeIn_fail {σ : Type} (injector : Injector σ) (f : factory) (ft : GoType)
    (d : Data) (sg : FuncSig) (w : World σ) (hval : f.Value = Value.mk ft d)
    (hsig : ft.sig = some sg) (hlen : f.parametersNames.length ≤ sg.ins.length)
    (pre post : List String) (n : String) (e : GoType × Data)
    (hnames : f.parametersNames = pre ++ n :: post)
    (hpre : allResolve injector pre w.state)
    (hfail : (injector.invokeNamed n (lookupsState injector pre w.state)).1.2 = some e) :
    f.invokeIn injector w
      = (.ok ([], some e),
          { state := (injector.invokeNamed n (lookupsState injector pre w.state)).2,
            trace := w.trace ++ (pre ++ [n]).map Event.lookup }) := by
  have hl : pre.length + (post.length + 1) ≤ sg.ins.length := by
    simpa [hnames] using hlen
  obtain ⟨values, hloop, -, -, -⟩ :=
    invokeInLoop_append injector ft d sg hsig pre (n :: post) 0
      (List.replicate f.parametersNames.length Value.zero) w hpre (by simp; omega)
      (by simp [hnames])
  rw [← hnames] at hloop
  unfold factory.invokeIn
  rw [hval, hloop, invokeInLoop_fail injector _ _ n post values _ e hfail]
  simp

/-! ## The claims about the validator -/

/-- C4: for every target type `T`, `cast` panics on every malformed candidate: a value
whose kind is not a function (the nil candidate included), a variadic function, a
function with zero outputs, with three or more outputs, with one or two outputs the
first of which is not identical to `T`, or with two outputs the second of which is not
`error`. -/
theorem cast_panics_on_malformed (nm : TypeNames) (T : GoType) (candidate : Any)
    (h : (reflectValueOf candidate).Kind ≠ Kind.func
      ∨ ∃ t d sg, candidate = some (t, d) ∧ t.sig = some sg ∧
          (sg.variadic = true ∨ sg.outs.length = 0 ∨ 3 ≤ sg.outs.length
            ∨ ((sg.outs.length = 1 ∨ sg.outs.length = 2) ∧ sg.outs[0]? ≠ some T)
            ∨ (sg.outs.length = 2 ∧ sg.outs[1]? ≠ some errorType))) :
    ∃ p, cast nm T candidate = .error p := by
  cases hc : cast nm T candidate with
  | error p => exact ⟨p, rfl⟩
  | ok v =>
    exfalso
    obtain ⟨t, d, sg, rfl, rfl, hsig, hv, ho⟩ := (cast_ok_iff nm T candidate v).mp hc
    rcases h with h | ⟨t2, d2, sg2, heq, hsig2, hbad⟩
    · exact h (by simpa [reflectValueOf, Value.Kind] using GoType.kind_of_sig hsig)
    · simp only [Option.some.injEq, Prod.mk.injEq] at heq
      obtain ⟨rfl, rfl⟩ := heq
      rw [hsig] at hsig2
      cases hsig2
      rcases ho with ho | ho <;> rw [ho] at hbad <;> simp [hv] at hbad

/-- Witness of C4: `func() int` is rejected for `T = any`, although `int` is assignable
to `any`. -/
theorem cast_panics_on_malformed_witness :
    intT.AssignableTo anyType = true
      ∧ ∃ p, cast exNames anyType (some (funcT [] [intT], Data.fn 0)) = .error p :=
  ⟨by decide,
    cast_panics_on_malformed exNames anyType (some (funcT [] [intT], Data.fn 0))
      (Or.inr ⟨funcT [] [intT], Data.fn 0, ⟨[], [intT], false⟩, rfl, rfl,
        Or.inr (Or.inr (Or.inr (Or.inl ⟨Or.inl rfl, by decide⟩)))⟩)⟩

/-- C5: for every target type `T` and every function that is not variadic and has the
outputs `(T)` or `(T, error)`, whatever its inputs, `cast` does not panic and returns
the `reflect.Value` of that same function: the same type and the same code. -/
theorem cast_accepts_well_formed (nm : TypeNames) (T t : GoType) (d : Data)
    (sg : FuncSig) (hsig : t.sig = some sg) (hv : sg.variadic = false)
    (ho : sg.outs = [T] ∨ sg.outs = [T, errorType]) :
    cast nm T (some (t, d)) = .ok (reflectValueOf (some (t, d)))
      ∧ reflectValueOf (some (t, d)) = Value.mk t d :=
  ⟨(cast_ok_iff nm T (some (t, d)) _).mpr ⟨t, d, sg, rfl, rfl, hsig, hv, ho⟩, rfl⟩

/-- Witness of C5: `func(int, string, any) (int, error)` is accepted for `T = int`. -/
theorem cast_accepts_well_formed_witness :
    cast exNames intT (some (funcT [intT, stringT, anyType] [intT, errorType], Data.fn 7))
        = .ok (reflectValueOf
            (some (funcT [intT, stringT, anyType] [intT, errorType], Data.fn 7)))
      ∧ reflectValueOf (some (funcT [intT, stringT, anyType] [intT, errorType], Data.fn 7))
        = Value.mk (funcT [intT, stringT, anyType] [intT, errorType]) (Data.fn 7) :=
  cast_accepts_well_formed exNames intT _ (Data.fn 7)
    ⟨[intT, stringT, anyType], [intT, errorType], false⟩ rfl rfl (Or.inr rfl)

/-- C6, as stated, fails: `MyErr` has the method `Error() string`, so it satisfies the
error capability, yet `cast` rejects `func() (int, MyErr)` for `T = int`. -/
theorem cast_rejects_concrete_error_type :
    implements errorType myErrT = true
      ∧ (funcT [] [intT, myErrT]).sig = some ⟨[], [intT, myErrT], false⟩
      ∧ cast exNames intT (some (funcT [] [intT, myErrT], Data.fn 0))
        = .error (Panic.message
            "cannot use func() (int, MyErr) as Factory func() (int[, error])") := by
  exact ⟨by decide, rfl, rfl⟩

/-- C6, amended: a function that is not variadic, with exactly two outputs the first
of which is identical to `T`, is accepted by `cast` exactly when its second output type
is identical to the interface type `error`. -/
theorem cast_two_outputs_iff_error (nm : TypeNames) (T t e : GoType) (d : Data)
    (sg : FuncSig) (hsig : t.sig = some sg) (hv : sg.variadic = false)
    (ho : sg.outs = [T, e]) :
    cast nm T (some (t, d)) = .ok (Value.mk t d) ↔ e = errorType := by
  rw [cast_ok_iff]
  constructor
  · rintro ⟨t2, d2, sg2, heq, -, hsig2, -, ho2⟩
    simp only [Option.some.injEq, Prod.mk.injEq] at heq
    obtain ⟨rfl, rfl⟩ := heq
    rw [hsig] at hsig2
    cases hsig2
    rw [ho] at ho2
    simpa using ho2
  · rintro rfl
    exact ⟨t, d, sg, rfl, rfl, hsig, hv, Or.inr ho⟩

/-- Witness of the amended C6: `func() (int, error)` is accepted for `T = int`. -/
theorem cast_two_outputs_iff_error_witness :
    cast exNames intT (some (funcT [] [intT, errorType], Data.fn 0))
        = .ok (Value.mk (funcT [] [intT, errorType]) (Data.fn 0))
      ↔ errorType = errorType :=
  cast_two_outputs_iff_error exNames intT (funcT [] [intT, errorType]) errorType
    (Data.fn 0) ⟨[], [intT, errorType], false⟩ rfl rfl rfl

/-- The message of `cast` for each of the three checks that can fail. -/
theorem cast_message_cases (nm : TypeNames) (T t : GoType) (d : Data) :
    (t.kind ≠ Kind.func →
        cast nm T (some (t, d)) = .error (Panic.message
          ("cannot use " ++ nm.typeString t
            ++ " as Factory func() (" ++ nm.typeString T ++ "[, error])")))
      ∧ (∀ sg, t.sig = some sg → sg.variadic = true →
        cast nm T (some (t, d)) = .error (Panic.message
          ("cannot use " ++ ("variadic " ++ nm.getReflectType t)
            ++ " as Factory func() (" ++ nm.typeString T ++ "[, error])")))
      ∧ (∀ sg, t.sig = some sg → sg.variadic = false →
        ¬ (sg.outs = [T] ∨ sg.outs = [T, errorType]) →
        cast nm T (some (t, d)) = .error (Panic.message
          ("cannot use " ++ nm.getReflectType t
            ++ " as Factory func() (" ++ nm.typeString T ++ "[, error])"))) := by
  refine ⟨?_, ?_, ?_⟩
  · intro hk
    rw [cast_some]
    simp [hk, unexpected]
  · intro sg hsig hv
    rw [cast_sig nm T t d sg hsig]
    simp [hv, unexpected]
  · intro sg hsig hv ho
    rw [cast_sig nm T t d sg hsig]
    simp [hv, ho, unexpected]

/-- C7: whenever `cast` rejects a candidate with a dynamic type `t`, the message of the
panic is exactly `cannot use <shape> as Factory func() (<T>[, error])`, where `<T>` is
the string of the target type and `<shape>` is chosen by the first failing check in the
order not-a-function, variadic, output shape: the string of `t` when `t` is not a
function, `variadic ` followed by the canonical name of `t` when `t` is variadic
(whatever its outputs), and the canonical name of `t` otherwise. -/
theorem cast_panic_message (nm : TypeNames) (T t : GoType) (d : Data) (p : Panic)
    (h : cast nm T (some (t, d)) = .error p) :
    p = Panic.message
      ("cannot use "
        ++ (if t.kind ≠ Kind.func then nm.typeString t
            else if t.sig.map FuncSig.variadic = some true then
              "variadic " ++ nm.getReflectType t
            else nm.getReflectType t)
        ++ " as Factory func() (" ++ nm.typeString T ++ "[, error])") := by
  obtain ⟨h1, h2, h3⟩ := cast_message_cases nm T t d
  by_cases hk : t.kind ≠ Kind.func
  · rw [h1 hk] at h
    simp only [Except.error.injEq] at h
    rw [← h, if_pos hk]
  · cases hsig : t.sig with
    | none => exact absurd ((GoType.sig_eq_none_iff t).mp hsig) hk
    | some sg =>
      by_cases hv : sg.variadic = true
      · rw [h2 sg hsig hv] at h
        simp only [Except.error.injEq] at h
        rw [← h, if_neg hk]
        simp [hv]
      · have hvf : sg.variadic = false := by simpa using hv
        by_cases ho : sg.outs = [T] ∨ sg.outs = [T, errorType]
        · rw [cast_sig nm T t d sg hsig] at h
          simp [hvf, ho] at h
        · rw [h3 sg hsig hvf ho] at h
          simp only [Except.error.injEq] at h
          rw [← h, if_neg hk]
          simp [hvf]

/-- Witness of C7: the variadic function `func(...int)`, which has no outputs at all,
gets the message of the variadic check, not that of the output check. -/
theorem cast_panic_message_witness :
    Panic.message "cannot use variadic func(...int) as Factory func() (interface {}[, error])"
      = Panic.message
        ("cannot use "
          ++ (if (GoType.func (.cons (.slice intT) .nil) .nil true).kind ≠ Kind.func then
                exNames.typeString (GoType.func (.cons (.slice intT) .nil) .nil true)
              else if (GoType.func (.cons (.slice intT) .nil) .nil true).sig.map
                  FuncSig.variadic = some true then
                "variadic "
                  ++ exNames.getReflectType (GoType.func (.cons (.slice intT) .nil) .nil true)
              else exNames.getReflectType (GoType.func (.cons (.slice intT) .nil) .nil true))
          ++ " as Factory func() (" ++ exNames.typeString anyType ++ "[, error])") :=
  cast_panic_message exNames anyType (GoType.func (.cons (.slice intT) .nil) .nil true)
    (Data.fn 0) _ rfl

/-! ## The claims about parameter resolution -/

/-- C3: for every validated factory and every injector, if the named lookup for some
parameter fails, the provider returns the zero value of `T` together with the error of
the first (leftmost) failing lookup, unchanged. -/
theorem provider_returns_lookup_error {σ : Type} (nm : TypeNames) (T : GoType)
    (candidate : Any) (f : factory) (code : Code σ) (injector : Injector σ) (w : World σ)
    (pre post : List String) (n : String) (e : GoType × Data)
    (hnew : newFactory nm T candidate = .ok f)
    (hnames : f.parametersNames = pre ++ n :: post)
    (hpre : allResolve injector pre w.state)
    (hfail : (injector.invokeNamed n (lookupsState injector pre w.state)).1.2 = some e) :
    (f.provider T code injector w).1 = .ok (zeroData T, some e) := by
  obtain ⟨t, d, sg, -, hval, hsig, -, -, hpn⟩ := newFactory_ok nm T candidate f hnew
  have hin := invokeIn_fail injector f t d sg w hval hsig (by simp [hpn]) pre post n e
    hnames hpre hfail
  simp only [factory.provider, hin]

/-- Witness of C3: `func(string, int) int` in a container with a `string` but no `int`. -/
theorem provider_returns_lookup_error_witness :
    (factory.provider intT exCode
        { Value := Value.mk (funcT [stringT, intT] [intT]) (Data.fn 2),
          parametersNames := ["string", "int"] }
        exInjector (exWorld [("string", some (stringT, Data.str "a"))])).1
      = .ok (zeroData intT,
          some (errorStringT, Data.str ("could not find service " ++ "int"))) :=
  provider_returns_lookup_error exNames intT
    (some (funcT [stringT, intT] [intT], Data.fn 2)) _ exCode exInjector
    (exWorld [("string", some (stringT, Data.str "a"))]) ["string"] [] "int" _
    rfl rfl ⟨rfl, trivial⟩ rfl

theorem zeroData_pointer : ∀ t : GoType, t.kind = Kind.pointer → zeroData t = Data.nil
  | .basic b => by cases b <;> simp [GoType.kind]
  | .named _ u _ => by
      intro h
      rw [zeroData]
      exact zeroData_pointer u (by simpa [GoType.kind] using h)
  | .pointer _ => by simp [zeroData]
  | .slice _ => by simp [GoType.kind]
  | .interface _ => by simp [GoType.kind]
  | .func _ _ _ => by simp [GoType.kind]
  | .struct _ _ => by simp [GoType.kind]

theorem zeroData_interface :
    ∀ t : GoType, t.kind = Kind.interface → zeroData t = Data.iface none
  | .basic b => by cases b <;> simp [GoType.kind]
  | .named _ u _ => by
      intro h
      rw [zeroData]
      exact zeroData_interface u (by simpa [GoType.kind] using h)
  | .pointer _ => by simp [GoType.kind]
  | .slice _ => by simp [GoType.kind]
  | .interface _ => by simp [zeroData]
  | .func _ _ _ => by simp [GoType.kind]
  | .struct _ _ => by simp [GoType.kind]

theorem argumentOf_isValid (ti : GoType) (v : Any) : (argumentOf ti v).IsValid = true := by
  rcases v with _ | ⟨t, d⟩ <;> rfl

/-- C8: if the lookup for position `i` succeeds but yields nil, `invokeIn` puts at
position `i` the zero value of the declared `i`-th parameter type, a valid Value of that
type (the nil pointer for a pointer type, the nil interface for an interface type), and
resolution goes on without error. -/
theorem invokeIn_nil_lookup_gives_zero {σ : Type} (injector : Injector σ) (f : factory)
    (ft : GoType) (d : Data) (sg : FuncSig) (w : World σ) (i : Nat) (ti : GoType)
    (hval : f.Value = Value.mk ft d) (hsig : ft.sig = some sg)
    (hlen : f.parametersNames.length ≤ sg.ins.length)
    (hall : allResolve injector f.parametersNames w.state)
    (hti : sg.ins[i]? = some ti)
    (hnil : (lookupValues injector f.parametersNames w.state)[i]? = some none) :
    ∃ values w1, f.invokeIn injector w = (.ok (values, none), w1)
      ∧ values[i]? = some (reflectZero ti)
      ∧ (reflectZero ti).IsValid = true ∧ (reflectZero ti).Type = .ok ti
      ∧ (ti.kind = Kind.pointer → reflectZero ti = Value.mk ti Data.nil)
      ∧ (ti.kind = Kind.interface → reflectZero ti = Value.mk ti (Data.iface none)) := by
  obtain ⟨values, hin, -, hat⟩ := invokeIn_ok injector f ft d sg w hval hsig hlen hall
  refine ⟨values, _, hin, hat i none ti hnil hti, rfl, rfl, ?_, ?_⟩
  · intro hk
    rw [reflectZero, zeroData_pointer ti hk]
  · intro hk
    rw [reflectZero, zeroData_interface ti hk]

/-- Witness of C8: `func(*int, string)` in a container that holds nil for `*int`. -/
theorem invokeIn_nil_lookup_gives_zero_witness :
    ∃ values w1,
      factory.invokeIn
          { Value := Value.mk (funcT [GoType.pointer intT, stringT] []) (Data.fn 2),
            parametersNames := ["*int", "string"] }
          exInjector
          (exWorld [("*int", none), ("string", some (stringT, Data.str "a"))])
        = (.ok (values, none), w1)
      ∧ values[0]? = some (reflectZero (GoType.pointer intT))
      ∧ (reflectZero (GoType.pointer intT)).IsValid = true
      ∧ (reflectZero (GoType.pointer intT)).Type = .ok (GoType.pointer intT)
      ∧ ((GoType.pointer intT).kind = Kind.pointer →
          reflectZero (GoType.pointer intT) = Value.mk (GoType.pointer intT) Data.nil)
      ∧ ((GoType.pointer intT).kind = Kind.interface →
          reflectZero (GoType.pointer intT)
            = Value.mk (GoType.pointer intT) (Data.iface none)) :=
  invokeIn_nil_lookup_gives_zero exInjector _ (funcT [GoType.pointer intT, stringT] [])
    (Data.fn 2) ⟨[GoType.pointer intT, stringT], [], false⟩ _ 0 (GoType.pointer intT)
    rfl rfl (by decide) ⟨rfl, rfl, trivial⟩ rfl rfl

theorem eq_take_cons_drop {α : Type} (l : List α) (k : Nat) (a : α)
    (h : l[k]? = some a) : l = l.take k ++ a :: l.drop (k + 1) := by
  obtain ⟨hk, rfl⟩ := List.getElem?_eq_some.mp h
  rw [← List.drop_eq_getElem_cons hk, List.take_append_drop]

/-- C9: `invokeIn` issues its named lookups in the order of the parameter names, each
at most once: if the lookup at position `k` is the first to fail, the lookups issued
are exactly those of `n[0..k]`; if none fails, they are exactly those of all the names,
once each. -/
theorem invokeIn_lookups_in_order {σ : Type} (injector : Injector σ) (f : factory)
    (ft : GoType) (d : Data) (sg : FuncSig) (w : World σ)
    (hval : f.Value = Value.mk ft d) (hsig : ft.sig = some sg)
    (hlen : f.parametersNames.length ≤ sg.ins.length) :
    (∀ (k : Nat) (n : String) (e : GoType × Data), f.parametersNames[k]? = some n →
        allResolve injector (f.parametersNames.take k) w.state →
        (injector.invokeNamed n
          (lookupsState injector (f.parametersNames.take k) w.state)).1.2 = some e →
        (f.invokeIn injector w).2.trace
          = w.trace ++ (f.parametersNames.take (k + 1)).map Event.lookup)
      ∧ (allResolve injector f.parametersNames w.state →
        (f.invokeIn injector w).2.trace
          = w.trace ++ f.parametersNames.map Event.lookup) := by
  constructor
  · intro k n e hk hpre hfail
    have hnames := eq_take_cons_drop f.parametersNames k n hk
    rw [invokeIn_fail injector f ft d sg w hval hsig hlen _ _ n e hnames hpre hfail]
    simp [List.take_succ, hk]
  · intro hall
    obtain ⟨values, hin, -, -⟩ := invokeIn_ok injector f ft d sg w hval hsig hlen hall
    rw [hin]

/-- Witness of C9: for `func(string, int, bool)` in a container with a `string` only,
the lookups issued are those of `string` and `int`, in that order, and none for `bool`. -/
theorem invokeIn_lookups_in_order_witness :
    (factory.invokeIn
        { Value := Value.mk (funcT [stringT, intT, GoType.basic Basic.bool] []) (Data.fn 2),
          parametersNames := ["string", "int", "bool"] }
        exInjector (exWorld [("string", some (stringT, Data.str "a"))])).2.trace
      = [] ++ (["string", "int", "bool"].take (1 + 1)).map Event.lookup :=
  (invokeIn_lookups_in_order exInjector _
    (funcT [stringT, intT, GoType.basic Basic.bool] []) (Data.fn 2)
    ⟨[stringT, intT, GoType.basic Basic.bool], [], false⟩
    (exWorld [("string", some (stringT, Data.str "a"))]) rfl rfl (by decide)).1
    1 "int" _ rfl ⟨rfl, trivial⟩ rfl

/-- C10: when all `m` lookups succeed, `invokeIn` returns a nil error and exactly `m`
valid Values; position `i` holds `reflect.ValueOf` of the value the injector returned
for the `i`-th name whenever that value is not nil, whatever the declared type of the
parameter. -/
theorem invokeIn_returns_looked_up_values {σ : Type} (injector : Injector σ) (f : factory)
    (ft : GoType) (d : Data) (sg : FuncSig) (w : World σ)
    (hval : f.Value = Value.mk ft d) (hsig : ft.sig = some sg)
    (hlen : f.parametersNames.length ≤ sg.ins.length)
    (hall : allResolve injector f.parametersNames w.state) :
    ∃ values w1, f.invokeIn injector w = (.ok (values, none), w1)
      ∧ values.length = f.parametersNames.length
      ∧ (∀ x ∈ values, x.IsValid = true)
      ∧ (∀ (i : Nat) (x : GoType × Data),
          (lookupValues injector f.parametersNames w.state)[i]? = some (some x) →
          values[i]? = some (reflectValueOf (some x))) := by
  obtain ⟨values, hin, hvl, hat⟩ := invokeIn_ok injector f ft d sg w hval hsig hlen hall
  refine ⟨values, _, hin, hvl, ?_, ?_⟩
  · intro x hx
    obtain ⟨j, hj, rfl⟩ := List.getElem_of_mem hx
    have hjn : j < f.parametersNames.length := hvl ▸ hj
    have hjl : j < (lookupValues injector f.parametersNames w.state).length := by
      rw [lookupValues_length]; exact hjn
    have hji : j < sg.ins.length := by omega
    have := hat j _ _ (List.getElem?_eq_getElem hjl) (List.getElem?_eq_getElem hji)
    rw [List.getElem?_eq_getElem hj, Option.some.injEq] at this
    rw [this]
    exact argumentOf_isValid _ _
  · intro i x hx
    have hil : i < (lookupValues injector f.parametersNames w.state).length := by
      by_contra h
      rw [List.getElem?_eq_none (by omega)] at hx
      cases hx
    rw [lookupValues_length] at hil
    have hii : i < sg.ins.length := by omega
    exact hat i (some x) _ hx (List.getElem?_eq_getElem hii)

/-- Witness of C10: `func(int, string)` in a container that holds a string under the
name `int`: the string is stored at position 0 as it is. -/
theorem invokeIn_returns_looked_up_values_witness :
    ∃ values w1,
      factory.invokeIn
          { Value := Value.mk (funcT [intT, stringT] []) (Data.fn 2),
            parametersNames := ["int", "string"] }
          exInjector
          (exWorld [("int", some (stringT, Data.str "x")),
            ("string", some (stringT, Data.str "a"))])
        = (.ok (values, none), w1)
      ∧ values.length = ["int", "string"].length
      ∧ (∀ x ∈ values, x.IsValid = true)
      ∧ (∀ (i : Nat) (x : GoType × Data),
          (lookupValues exInjector ["int", "string"]
            [("int", some (stringT, Data.str "x")),
              ("string", some (stringT, Data.str "a"))])[i]? = some (some x) →
          values[i]? = some (reflectValueOf (some x))) :=
  invokeIn_returns_looked_up_values exInjector _ (funcT [intT, stringT] []) (Data.fn 2)
    ⟨[intT, stringT], [], false⟩ _ rfl rfl (by decide) ⟨rfl, rfl, trivial⟩

/-! ## The claims about the provider -/

/-- The outputs of a successful `Call`: one Value per output of the function type, of
the declared type, read from the memory of the results. -/
theorem Call_ok_outs {σ : Type} (code : Code σ) (t : GoType) (d : Data) (sg : FuncSig)
    (input out : List Value) (w w2 : World σ) (hsig : t.sig = some sg)
    (h : (Value.mk t d).Call code input w = (.ok out, w2)) :
    ∃ frame : Nat → Data, out = sg.outs.enum.map (fun it => Value.mk it.2 (frame it.1)) := by
  simp only [Value.Call, hsig] at h
  split at h
  · split at h
    · cases h
    · split at h
      · cases h
      · split at h
        · cases h
        · split at h
          · cases h
          · split at h
            · cases h
            · split at h
              · cases h
              · rename_i frame _
                simp only [Prod.mk.injEq, Except.ok.injEq] at h
                exact ⟨frame, h.1.symm⟩
  · cases h

/-- The conversion of a well-typed output of type `T` to `T` gives back its data. -/
theorem typeAssert_Interface (T : GoType) (r : Data)
    (hwt : (Value.mk T r).wellTyped = true) :
    ∃ x, (Value.mk T r).Interface = .ok x ∧ (typeAssert T x).1 = r := by
  by_cases hk : T.kind = Kind.interface
  · simp only [Value.wellTyped, hk, if_true] at hwt
    simp only [Value.Interface, hk, if_true, typeAssert]
    cases r with
    | iface a =>
      rcases a with _ | ⟨dt, dd⟩
      · exact ⟨none, rfl, rfl⟩
      · simp only at hwt
        exact ⟨some (dt, dd), rfl, by simp [assertInterface, hwt]⟩
    | _ => simp at hwt
  · exact ⟨some (T, r), by simp [Value.Interface, hk], by simp [typeAssert, hk]⟩

/-- The conversion of the outputs of an accepted factory in `provider`. -/
theorem provider_of_call {σ : Type} (nm : TypeNames) (T : GoType)
    (candidate : Any) (f : factory) (code : Code σ) (injector : Injector σ)
    (w w1 w2 : World σ) (input out : List Value)
    (hnew : newFactory nm T candidate = .ok f)
    (hin : f.invokeIn injector w = (.ok (input, none), w1))
    (hcall : f.Value.Call code input w1 = (.ok out, w2))
    (hwt : ∀ o ∈ out, o.wellTyped = true) :
    ∃ r, out[0]? = some (Value.mk T r)
      ∧ (out.length = 1 → f.provider T code injector w = (.ok (r, none), w2))
      ∧ (∀ a : Any, out[1]? = some (Value.mk errorType (Data.iface a)) →
          f.provider T code injector w = (.ok (r, a), w2)) := by
  obtain ⟨t, d, sg, -, hval, hsig, -, ho, -⟩ := newFactory_ok nm T candidate f hnew
  rw [hval] at hcall
  obtain ⟨frame, rfl⟩ := Call_ok_outs code t d sg input out w1 w2 hsig hcall
  have h0 : (sg.outs.enum.map (fun it => Value.mk it.2 (frame it.1)))[0]?
      = some (Value.mk T (frame 0)) := by
    rcases ho with ho | ho <;> simp [ho, List.enum]
  obtain ⟨x0, hx0, hr⟩ := typeAssert_Interface T (frame 0)
    (hwt _ (List.getElem?_mem h0))
  refine ⟨frame 0, h0, ?_, ?_⟩
  · intro hl
    simp only [factory.provider, hin, hval, hcall, h0, hx0, hr]
    simp [hl]
  · intro a h1
    have hl : (sg.outs.enum.map (fun it => Value.mk it.2 (frame it.1))).length = 2 := by
      rcases ho with ho | ho
      · simp [ho, List.enum] at h1
      · simp [ho, List.enum]
    have hw1 := hwt _ (List.getElem?_mem h1)
    simp only [factory.provider, hin, hval, hcall, h0, hx0, hr]
    rcases a with _ | ⟨et, ed⟩
    · simp [hl, h1, Value.Interface, errorType, GoType.kind, assertInterface]
    · have : implements errorType et = true := by
        simpa [Value.wellTyped, errorType, GoType.kind] using hw1
      simp [hl, h1, Value.Interface, GoType.kind, assertInterface, this]

/-- C1, as stated, fails: both factories are accepted by `cast` for `T = int`, have a
single output, and every parameter name resolves, yet the provider returns nothing.
For `func(int) int` and a container that holds a string under the name `int`, `Call`
panics on the argument; for a nil function of type `func() int`, `Call` panics on the
nil function. -/
theorem provider_panics_instead_of_first_output :
    (newFactory exNames intT (some (funcT [intT] [intT], Data.fn 1))
        = .ok { Value := Value.mk (funcT [intT] [intT]) (Data.fn 1),
                parametersNames := ["int"] }
      ∧ allResolve exInjector ["int"] [("int", some (stringT, Data.str "x"))]
      ∧ (factory.provider intT exCode
          { Value := Value.mk (funcT [intT] [intT]) (Data.fn 1), parametersNames := ["int"] }
          exInjector (exWorld [("int", some (stringT, Data.str "x"))])).1
        = .error (Panic.callNotAssignable stringT intT))
      ∧ (newFactory exNames intT (some (funcT [] [intT], Data.nil))
          = .ok { Value := Value.mk (funcT [] [intT]) Data.nil, parametersNames := [] }
        ∧ allResolve exInjector [] []
        ∧ (factory.provider intT exCode
            { Value := Value.mk (funcT [] [intT]) Data.nil, parametersNames := [] }
            exInjector (exWorld [])).1
          = .error Panic.callNilFunc) :=
  ⟨⟨rfl, ⟨rfl, trivial⟩, rfl⟩, rfl, trivial, rfl⟩

/-- C1, amended: for every factory accepted by `cast` and every injector in which every
parameter name resolves, `ToProvider` returns the method `provider` of the descriptor
and `invokeIn` returns the resolved arguments; if `Call` of the factory on them returns
a single output, or two outputs the second of which is a nil error, then the provider
returns exactly the first output of the factory together with a nil error; if `Call`
panics instead, the provider panics with it and returns nothing. -/
theorem provider_returns_first_output {σ : Type} (nm : TypeNames) (T : GoType)
    (candidate : Any) (f : factory) (code : Code σ) (injector : Injector σ) (w : World σ)
    (hnew : newFactory nm T candidate = .ok f)
    (hall : allResolve injector f.parametersNames w.state) :
    ToProvider nm T code candidate = .ok (f.provider T code)
      ∧ ∃ input w1, f.invokeIn injector w = (.ok (input, none), w1)
        ∧ (∀ out w2, f.Value.Call code input w1 = (.ok out, w2) →
          (∀ o ∈ out, o.wellTyped = true) →
          (out.length = 1
            ∨ (out.length = 2 ∧ out[1]? = some (Value.mk errorType (Data.iface none)))) →
          ∃ r, out[0]? = some (Value.mk T r)
            ∧ f.provider T code injector w = (.ok (r, none), w2))
        ∧ (∀ p w2, f.Value.Call code input w1 = (.error p, w2) →
          f.provider T code injector w = (.error p, w2)) := by
  obtain ⟨t, d, sg, -, hval, hsig, -, -, hpn⟩ := newFactory_ok nm T candidate f hnew
  obtain ⟨input, hin, -, -⟩ :=
    invokeIn_ok injector f t d sg w hval hsig (by simp [hpn]) hall
  refine ⟨by simp [ToProvider, hnew], input, _, hin, ?_, ?_⟩
  · intro out w2 hcall hwt hout
    obtain ⟨r, h0, hone, htwo⟩ :=
      provider_of_call nm T candidate f code injector w _ w2 input out hnew hin hcall hwt
    refine ⟨r, h0, ?_⟩
    rcases hout with hl | ⟨-, h1⟩
    · exact hone hl
    · exact htwo none h1
  · intro p w2 hcall
    simp only [factory.provider, hin, hcall]

/-- Witness of the amended C1: `func(int) (int, error)` returning its argument and a nil error, in
a container that holds `1` for `int`: the provider returns `1` and a nil error. -/
theorem provider_returns_first_output_witness :
    factory.provider intT exCode
        { Value := Value.mk (funcT [intT] [intT, errorType]) (Data.fn 1),
          parametersNames := ["int"] }
        exInjector (exWorld [("int", some (intT, Data.int 1))])
      = (.ok (Data.int 1, none),
          { state := [("int", some (intT, Data.int 1))],
            trace := [Event.lookup "int", Event.call 1 [Value.mk intT (Data.int 1)]] }) := by
  obtain ⟨-, input, w1, hin, h, -⟩ :=
    provider_returns_first_output exNames intT
      (some (funcT [intT] [intT, errorType], Data.fn 1))
      { Value := Value.mk (funcT [intT] [intT, errorType]) (Data.fn 1),
        parametersNames := ["int"] } exCode exInjector
      (exWorld [("int", some (intT, Data.int 1))]) rfl ⟨rfl, trivial⟩
  have hin0 : factory.invokeIn
      { Value := Value.mk (funcT [intT] [intT, errorType]) (Data.fn 1),
        parametersNames := ["int"] }
      exInjector (exWorld [("int", some (intT, Data.int 1))])
      = (.ok ([Value.mk intT (Data.int 1)], none),
          { state := [("int", some (intT, Data.int 1))],
            trace := [Event.lookup "int"] }) := rfl
  rw [hin0] at hin
  simp only [Prod.mk.injEq, Except.ok.injEq, and_true] at hin
  obtain ⟨rfl, rfl⟩ := hin
  obtain ⟨r, h0, hp⟩ :=
    h [Value.mk intT (Data.int 1), Value.mk errorType (Data.iface none)]
      { state := [("int", some (intT, Data.int 1))],
        trace := [Event.lookup "int", Event.call 1 [Value.mk intT (Data.int 1)]] }
      rfl (by intro o ho; simp at ho; rcases ho with rfl | rfl <;> rfl)
      (Or.inr ⟨rfl, rfl⟩)
  simp only [List.getElem?_cons_zero, Option.some.injEq, Value.mk.injEq, true_and] at h0
  rw [← h0] at hp
  exact hp

/-- C2, as stated, fails: `func() (int, error)` returning `5` together with the error
`ERROR` is accepted for `T = int`, and the provider returns `5`, which is not the zero
value of `int`, together with that error. -/
theorem provider_keeps_first_output_on_error :
    newFactory exNames intT (some (funcT [] [intT, errorType], Data.fn 0))
        = .ok { Value := Value.mk (funcT [] [intT, errorType]) (Data.fn 0),
                parametersNames := [] }
      ∧ (factory.provider intT exCode
          { Value := Value.mk (funcT [] [intT, errorType]) (Data.fn 0),
            parametersNames := [] }
          exInjector (exWorld [])).1
        = .ok (Data.int 5, some (errorStringT, Data.str "ERROR"))
      ∧ Data.int 5 ≠ zeroData intT := by
  refine ⟨rfl, rfl, ?_⟩
  simp [zeroData, intT]

/-- C2, amended: for every factory accepted by `cast` and every injector in which
every parameter name resolves, when the call of the factory returns a first output
together with a non-nil error `e` as second output, the provider returns that first
output, unchanged, together with `e`. -/
theorem provider_returns_factory_error {σ : Type} (nm : TypeNames) (T : GoType)
    (candidate : Any) (f : factory) (code : Code σ) (injector : Injector σ) (w : World σ)
    (hnew : newFactory nm T candidate = .ok f)
    (hall : allResolve injector f.parametersNames w.state) :
    ∃ input w1, f.invokeIn injector w = (.ok (input, none), w1)
      ∧ ∀ out w2 (e : GoType × Data), f.Value.Call code input w1 = (.ok out, w2) →
        (∀ o ∈ out, o.wellTyped = true) →
        out[1]? = some (Value.mk errorType (Data.iface (some e))) →
        ∃ r, out[0]? = some (Value.mk T r)
          ∧ f.provider T code injector w = (.ok (r, some e), w2) := by
  obtain ⟨t, d, sg, -, hval, hsig, -, -, hpn⟩ := newFactory_ok nm T candidate f hnew
  obtain ⟨input, hin, -, -⟩ :=
    invokeIn_ok injector f t d sg w hval hsig (by simp [hpn]) hall
  refine ⟨input, _, hin, ?_⟩
  intro out w2 e hcall hwt h1
  obtain ⟨r, h0, -, htwo⟩ :=
    provider_of_call nm T candidate f code injector w _ w2 input out hnew hin hcall hwt
  exact ⟨r, h0, htwo (some e) h1⟩

/-- Witness of the amended C2: `func() (int, error)` returning `5` and the error
`ERROR`: the provider returns `5` and that error. -/
theorem provider_returns_factory_error_witness :
    factory.provider intT exCode
        { Value := Value.mk (funcT [] [intT, errorType]) (Data.fn 0),
          parametersNames := [] }
        exInjector (exWorld [])
      = (.ok (Data.int 5, some (errorStringT, Data.str "ERROR")),
          { state := [], trace := [Event.call 0 []] }) := by
  obtain ⟨input, w1, hin, h⟩ :=
    provider_returns_factory_error exNames intT
      (some (funcT [] [intT, errorType], Data.fn 0))
      { Value := Value.mk (funcT [] [intT, errorType]) (Data.fn 0),
        parametersNames := [] } exCode exInjector
      (exWorld []) rfl trivial
  have hin0 : factory.invokeIn
      { Value := Value.mk (funcT [] [intT, errorType]) (Data.fn 0),
        parametersNames := [] }
      exInjector (exWorld []) = (.ok ([], none), { state := [], trace := [] }) := rfl
  rw [hin0] at hin
  simp only [Prod.mk.injEq, Except.ok.injEq, and_true] at hin
  obtain ⟨rfl, rfl⟩ := hin
  obtain ⟨r, h0, hp⟩ :=
    h [Value.mk intT (Data.int 5),
        Value.mk errorType (Data.iface (some (errorStringT, Data.str "ERROR")))]
      { state := [], trace := [Event.call 0 []] } (errorStringT, Data.str "ERROR")
      rfl (by intro o ho; simp at ho; rcases ho with rfl | rfl <;> rfl) rfl
  simp only [List.getElem?_cons_zero, Option.some.injEq, Value.mk.injEq, true_and] at h0
  rw [← h0] at hp
  exact hp

/-! ## The claims about the descriptor -/

/-- The list `getParametersNames` returns holds at each position the canonical name of
the input at that position. -/
theorem getParametersNames_getElem (nm : TypeNames) (ft : GoType) (names : List String)
    (i : Nat) (ti : GoType) (h : getParametersNames nm ft = .ok names)
    (hi : ft.In i = .ok ti) : names[i]? = some (nm.getReflectType ti) := by
  cases hsig : ft.sig with
  | none => simp [getParametersNames, hsig] at h
  | some sg =>
    simp only [getParametersNames, hsig, Except.ok.injEq] at h
    subst h
    simp only [GoType.In, hsig] at hi
    cases hget : sg.ins[i]? with
    | none => simp [hget] at hi
    | some tj =>
      simp only [hget, Except.ok.injEq] at hi
      simp [hget, hi]

/-- C11: for every function type `ft`, `getParametersNames` returns a list whose length
is the number of inputs of `ft` and whose `i`-th element is the canonical name of the
`i`-th input, in declaration order (the empty list for a function with no inputs); the
outputs of `ft` do not affect the result. -/
theorem getParametersNames_spec (nm : TypeNames) (ft : GoType) (sg : FuncSig)
    (hsig : ft.sig = some sg) :
    ∃ names, getParametersNames nm ft = .ok names
      ∧ names.length = sg.ins.length
      ∧ (∀ (i : Nat) (ti : GoType), ft.In i = .ok ti →
          names[i]? = some (nm.getReflectType ti))
      ∧ (sg.ins = [] → names = [])
      ∧ (∀ (ft2 : GoType) (sg2 : FuncSig), ft2.sig = some sg2 → sg2.ins = sg.ins →
          getParametersNames nm ft2 = .ok names) := by
  have hnames : getParametersNames nm ft = .ok (sg.ins.map nm.getReflectType) := by
    simp [getParametersNames, hsig]
  refine ⟨sg.ins.map nm.getReflectType, hnames, by simp, ?_, ?_, ?_⟩
  · intro i ti hi
    exact getParametersNames_getElem nm ft _ i ti hnames hi
  · intro h
    simp [h]
  · intro ft2 sg2 hsig2 hins
    simp [getParametersNames, hsig2, hins]

/-- Witness of C11: the names of `func(int, string, any) any` are those of `int`,
`string` and `any`, in that order. -/
theorem getParametersNames_spec_witness :
    ∃ names, getParametersNames exNames (funcT [intT, stringT, anyType] [anyType])
        = .ok names
      ∧ names.length = [intT, stringT, anyType].length
      ∧ (∀ (i : Nat) (ti : GoType),
          (funcT [intT, stringT, anyType] [anyType]).In i = .ok ti →
          names[i]? = some (exNames.getReflectType ti))
      ∧ ([intT, stringT, anyType] = [] → names = [])
      ∧ (∀ (ft2 : GoType) (sg2 : FuncSig), ft2.sig = some sg2 →
          sg2.ins = [intT, stringT, anyType] →
          getParametersNames exNames ft2 = .ok names) :=
  getParametersNames_spec exNames (funcT [intT, stringT, anyType] [anyType])
    ⟨[intT, stringT, anyType], [anyType], false⟩ rfl

/-- C16, at the nil candidate: `reflect.ValueOf(nil)` is the zero Value, and `cast` stops
in `Type` on it, before the `switch`; the panic is not the message of `unexpected`. -/
theorem cast_nil_candidate (nm : TypeNames) (T : GoType) :
    (reflectValueOf none).Kind ≠ Kind.func
      ∧ cast nm T none = .error Panic.typeOfZeroValue
      ∧ ∀ s : String, cast nm T none ≠ .error (Panic.message s) := by
  refine ⟨by simp [reflectValueOf, Value.Kind], rfl, ?_⟩
  intro s h
  simp [cast, reflectValueOf, Value.Type] at h

/-! ## The conversion of the first output -/

/-- The conversion of a well-typed output of type `T` to `T`: the value is kept, and the
assertion fails only on the nil value of an interface type. -/
theorem typeAssert_Interface_ok (T : GoType) (r : Data)
    (hwt : (Value.mk T r).wellTyped = true) :
    ∃ x, (Value.mk T r).Interface = .ok x ∧ (typeAssert T x).1 = r
      ∧ ((typeAssert T x).2 = false →
          T.kind = Kind.interface ∧ r = Data.iface none ∧ zeroData T = r) := by
  by_cases hk : T.kind = Kind.interface
  · simp only [Value.wellTyped, hk, if_true] at hwt
    simp only [Value.Interface, hk, if_true, typeAssert]
    cases r with
    | iface a =>
      rcases a with _ | ⟨dt, dd⟩
      · exact ⟨none, rfl, rfl, fun _ => ⟨trivial, rfl, zeroData_interface T hk⟩⟩
      · simp only at hwt
        exact ⟨some (dt, dd), rfl, by simp [assertInterface, hwt],
          by simp [assertInterface, hwt]⟩
    | _ => simp at hwt
  · exact ⟨some (T, r), by simp [Value.Interface, hk], by simp [typeAssert, hk],
      by simp [typeAssert, hk]⟩

/-- C14: for every factory accepted by `cast`, the conversion of its first output to `T`
in `provider` never changes the value: the type assertion to `T` fails only when `T` is
an interface type and the output is the nil interface, and then the zero value it
yields is that output. -/
theorem provider_conversion_keeps_value {σ : Type} (nm : TypeNames) (T : GoType)
    (candidate : Any) (f : factory) (code : Code σ) (input out : List Value)
    (w1 w2 : World σ)
    (hnew : newFactory nm T candidate = .ok f)
    (hcall : f.Value.Call code input w1 = (.ok out, w2))
    (hwt : ∀ o ∈ out, o.wellTyped = true) :
    ∃ r x, out[0]? = some (Value.mk T r) ∧ (Value.mk T r).Interface = .ok x
      ∧ (typeAssert T x).1 = r
      ∧ ((typeAssert T x).2 = false →
          T.kind = Kind.interface ∧ r = Data.iface none ∧ zeroData T = r) := by
  obtain ⟨t, d, sg, -, hval, hsig, -, ho, -⟩ := newFactory_ok nm T candidate f hnew
  rw [hval] at hcall
  obtain ⟨frame, rfl⟩ := Call_ok_outs code t d sg input out w1 w2 hsig hcall
  have h0 : (sg.outs.enum.map (fun it => Value.mk it.2 (frame it.1)))[0]?
      = some (Value.mk T (frame 0)) := by
    rcases ho with ho | ho <;> simp [ho, List.enum]
  obtain ⟨x, hx, hr, hfail⟩ := typeAssert_Interface_ok T (frame 0)
    (hwt _ (List.getElem?_mem h0))
  exact ⟨frame 0, x, h0, hx, hr, hfail⟩

/-- Witness of C14: `func() (error, error)` returning two nil errors, for `T = error`:
the assertion of the nil interface to `error` fails and yields the nil interface. -/
theorem provider_conversion_keeps_value_witness :
    ∃ r x, [Value.mk errorType (Data.iface none), Value.mk errorType (Data.iface none)][0]?
        = some (Value.mk errorType r)
      ∧ (Value.mk errorType r).Interface = .ok x
      ∧ (typeAssert errorType x).1 = r
      ∧ ((typeAssert errorType x).2 = false →
          errorType.kind = Kind.interface ∧ r = Data.iface none ∧ zeroData errorType = r) :=
  provider_conversion_keeps_value exNames errorType
    (some (funcT [] [errorType, errorType], Data.fn 3))
    { Value := Value.mk (funcT [] [errorType, errorType]) (Data.fn 3),
      parametersNames := [] }
    exCode [] _ (exWorld []) { state := [], trace := [Event.call 3 []] } rfl rfl
    (by intro o ho; simp at ho; rw [ho]; rfl)

/-! ## Arity safety -/

/-- The loop of `invokeIn` on a descriptor with enough inputs never panics: it returns
the error of a lookup, or as many values as it was given. -/
theorem invokeInLoop_total {σ : Type} (injector : Injector σ) (ft : GoType) (d : Data)
    (sg : FuncSig) (hsig : ft.sig = some sg) :
    ∀ (names : List String) (i : Nat) (values : List Value) (w : World σ),
      i + names.length ≤ sg.ins.length →
      (∃ e w1, invokeInLoop (Value.mk ft d) injector i names values w
          = (.ok ([], some e), w1))
        ∨ (∃ vals w1, invokeInLoop (Value.mk ft d) injector i names values w
            = (.ok (vals, none), w1) ∧ vals.length = values.length) := by
  intro names
  induction names with
  | nil =>
    intro i values w _
    exact Or.inr ⟨values, w, by rw [invokeInLoop], rfl⟩
  | cons n names ih =>
    intro i values w hins
    simp only [List.length_cons] at hins
    have hi : i < sg.ins.length := by omega
    have hti : sg.ins[i]? = some sg.ins[i] := List.getElem?_eq_getElem hi
    rw [invokeInLoop]
    cases herr : (InvokeNamed injector n w).1.2 with
    | some e => exact Or.inl ⟨e, _, rfl⟩
    | none =>
      cases hv : (InvokeNamed injector n w).1.1 with
      | none =>
        simp only [Value.Type, GoType.In, hsig, hti]
        simpa using ih (i + 1) (values.set i (reflectZero sg.ins[i]))
          (InvokeNamed injector n w).2 (by omega)
      | some x =>
        simpa using ih (i + 1) (values.set i (reflectValueOf (some x)))
          (InvokeNamed injector n w).2 (by omega)

/-- The panics of `Call` on as many arguments as the function has inputs are not those
of a wrong number of arguments or of an index out of range. -/
theorem Call_error_not_arity {σ : Type} (code : Code σ) (t : GoType) (d : Data)
    (sg : FuncSig) (input : List Value) (w w2 : World σ) (p : Panic)
    (hsig : t.sig = some sg) (hlen : input.length = sg.ins.length)
    (h : (Value.mk t d).Call code input w = (.error p, w2)) :
    p ≠ Panic.callTooFew ∧ p ≠ Panic.callTooMany ∧ p ≠ Panic.funcIndex
      ∧ p ≠ Panic.indexOutOfRange := by
  simp only [Value.Call, hsig] at h
  split at h
  · split at h
    · simp only [Prod.mk.injEq, Except.error.injEq] at h
      obtain ⟨rfl, -⟩ := h
      simp
    · split at h
      · omega
      · split at h
        · omega
        · split at h
          · simp only [Prod.mk.injEq, Except.error.injEq] at h
            obtain ⟨rfl, -⟩ := h
            simp
          · split at h
            · simp only [Prod.mk.injEq, Except.error.injEq] at h
              obtain ⟨rfl, -⟩ := h
              simp
            · split at h
              · simp only [Prod.mk.injEq, Except.error.injEq] at h
                obtain ⟨rfl, -⟩ := h
                simp
              · simp at h
  · simp only [Prod.mk.injEq, Except.error.injEq] at h
    obtain ⟨rfl, -⟩ := h
    simp

/-- The method `Interface` succeeds on every valid Value. -/
theorem Interface_mk_ok (t : GoType) (d : Data) :
    ∃ x, (Value.mk t d).Interface = .ok x := by
  simp only [Value.Interface]
  split
  · split <;> exact ⟨_, rfl⟩
  · exact ⟨_, rfl⟩

/-- C15: every descriptor built by `newFactory` has as many parameter names as the
wrapped function has inputs, and then the provider is arity-safe: every `In(i)` taken in
`invokeIn` is in range, `invokeIn` never panics and passes to `Call` exactly as many
arguments as the function has inputs, the outputs of `Call` number 1 or 2 so that
`out[0]` (and `out[1]` when there are two) is in range, and `provider` never stops on an
index out of range or on a wrong number of arguments. -/
theorem newFactory_arity_safe (nm : TypeNames) (T : GoType) (candidate : Any)
    (f : factory) (hnew : newFactory nm T candidate = .ok f) :
    ∃ t d sg, f.Value = Value.mk t d ∧ t.sig = some sg
      ∧ f.parametersNames.length = sg.ins.length
      ∧ (∀ i, i < f.parametersNames.length → ∃ ti, t.In i = .ok ti)
      ∧ (∀ (σ : Type) (injector : Injector σ) (w : World σ),
          (∃ e w1, f.invokeIn injector w = (.ok ([], some e), w1))
            ∨ (∃ input w1, f.invokeIn injector w = (.ok (input, none), w1)
                ∧ input.length = sg.ins.length))
      ∧ (∀ (σ : Type) (code : Code σ) (input out : List Value) (w w2 : World σ),
          f.Value.Call code input w = (.ok out, w2) →
          (out.length = 1 ∨ out.length = 2) ∧ (∃ o0, out[0]? = some o0)
            ∧ (out.length = 2 → ∃ o1, out[1]? = some o1))
      ∧ (∀ (σ : Type) (code : Code σ) (injector : Injector σ) (w : World σ),
          (f.provider T code injector w).1 ≠ .error Panic.funcIndex
            ∧ (f.provider T code injector w).1 ≠ .error Panic.indexOutOfRange
            ∧ (f.provider T code injector w).1 ≠ .error Panic.callTooFew
            ∧ (f.provider T code injector w).1 ≠ .error Panic.callTooMany) := by
  obtain ⟨t, d, sg, -, hval, hsig, -, ho, hpn⟩ := newFactory_ok nm T candidate f hnew
  have hlen : f.parametersNames.length = sg.ins.length := by simp [hpn]
  have hin : ∀ (σ : Type) (injector : Injector σ) (w : World σ),
      (∃ e w1, f.invokeIn injector w = (.ok ([], some e), w1))
        ∨ (∃ input w1, f.invokeIn injector w = (.ok (input, none), w1)
            ∧ input.length = sg.ins.length) := by
    intro σ injector w
    have := invokeInLoop_total injector t d sg hsig f.parametersNames 0
      (List.replicate f.parametersNames.length Value.zero) w (by omega)
    unfold factory.invokeIn
    rw [hval]
    rcases this with h | ⟨vals, w1, h, hl⟩
    · exact Or.inl h
    · exact Or.inr ⟨vals, w1, h, by simpa [hlen] using hl⟩
  have hout : ∀ (σ : Type) (code : Code σ) (input out : List Value) (w w2 : World σ),
      f.Value.Call code input w = (.ok out, w2) →
      ∃ r0, out[0]? = some (Value.mk T r0)
        ∧ (out.length = 1 ∨ (out.length = 2 ∧ ∃ r1, out[1]? = some (Value.mk errorType r1))) := by
    intro σ code input out w w2 hcall
    rw [hval] at hcall
    obtain ⟨frame, rfl⟩ := Call_ok_outs code t d sg input out w w2 hsig hcall
    rcases ho with ho | ho
    · exact ⟨frame 0, by simp [ho, List.enum], Or.inl (by simp [ho, List.enum])⟩
    · exact ⟨frame 0, by simp [ho, List.enum],
        Or.inr ⟨by simp [ho, List.enum], frame 1, by simp [ho, List.enum]⟩⟩
  refine ⟨t, d, sg, hval, hsig, hlen, ?_, hin, ?_, ?_⟩
  · intro i hi
    have hi2 : i < sg.ins.length := by omega
    exact ⟨sg.ins[i], by simp [GoType.In, hsig, List.getElem?_eq_getElem hi2]⟩
  · intro σ code input out w w2 hcall
    obtain ⟨r0, h0, hl⟩ := hout σ code input out w w2 hcall
    refine ⟨?_, ⟨_, h0⟩, ?_⟩
    · rcases hl with hl | ⟨hl, -⟩
      · exact Or.inl hl
      · exact Or.inr hl
    · intro h2
      rcases hl with hl | ⟨-, r1, h1⟩
      · omega
      · exact ⟨_, h1⟩
  · intro σ code injector w
    unfold factory.provider
    rcases hin σ injector w with ⟨e, w1, h⟩ | ⟨input, w1, h, hil⟩
    · simp [h]
    · simp only [h]
      cases hcall : f.Value.Call code input w1 with
      | mk res w2 =>
        cases res with
        | error p =>
          rw [hval] at hcall
          obtain ⟨h1, h2, h3, h4⟩ :=
            Call_error_not_arity code t d sg input w1 w2 p hsig hil hcall
          exact ⟨fun hp => h3 (Except.error.inj hp), fun hp => h4 (Except.error.inj hp),
            fun hp => h1 (Except.error.inj hp), fun hp => h2 (Except.error.inj hp)⟩
        | ok out =>
          obtain ⟨r0, h0, hl⟩ := hout σ code input out w1 w2 hcall
          obtain ⟨x0, hx0⟩ := Interface_mk_ok T r0
          simp only [h0, hx0]
          rcases hl with hl | ⟨hl, r1, h1⟩
          · have hne : ¬ out.length = 2 := by omega
            simp [hne]
          · obtain ⟨x1, hx1⟩ := Interface_mk_ok errorType r1
            simp [hl, h1, hx1]

/-- Witness of C15: the descriptor of `func(int, string) (int, error)`. -/
theorem newFactory_arity_safe_witness :
    ∃ t d sg, exDescriptor.Value = Value.mk t d ∧ t.sig = some sg
      ∧ exDescriptor.parametersNames.length = sg.ins.length
      ∧ (∀ i, i < exDescriptor.parametersNames.length → ∃ ti, t.In i = .ok ti)
      ∧ (∀ (σ : Type) (injector : Injector σ) (w : World σ),
          (∃ e w1, exDescriptor.invokeIn injector w = (.ok ([], some e), w1))
            ∨ (∃ input w1, exDescriptor.invokeIn injector w = (.ok (input, none), w1)
                ∧ input.length = sg.ins.length))
      ∧ (∀ (σ : Type) (code : Code σ) (input out : List Value) (w w2 : World σ),
          exDescriptor.Value.Call code input w = (.ok out, w2) →
          (out.length = 1 ∨ out.length = 2) ∧ (∃ o0, out[0]? = some o0)
            ∧ (out.length = 2 → ∃ o1, out[1]? = some o1))
      ∧ (∀ (σ : Type) (code : Code σ) (injector : Injector σ) (w : World σ),
          (exDescriptor.provider intT code injector w).1 ≠ .error Panic.funcIndex
            ∧ (exDescriptor.provider intT code injector w).1 ≠ .error Panic.indexOutOfRange
            ∧ (exDescriptor.provider intT code injector w).1 ≠ .error Panic.callTooFew
            ∧ (exDescriptor.provider intT code injector w).1 ≠ .error Panic.callTooMany) :=
  newFactory_arity_safe exNames intT
    (some (funcT [intT, stringT] [intT, errorType], Data.fn 2)) exDescriptor rfl

/-! ## The calls of the factory -/

theorem callsOf_append (a b : List Event) : callsOf (a ++ b) = callsOf a ++ callsOf b := by
  induction a with
  | nil => rfl
  | cons e a ih => cases e <;> simp [callsOf, ih]

theorem callsOf_lookups (names : List String) : callsOf (names.map Event.lookup) = [] := by
  induction names with
  | nil => rfl
  | cons n names ih => simpa [callsOf] using ih

/-- The values of a successful `invokeIn` are all valid. -/
theorem invokeIn_ok_valid {σ : Type} (injector : Injector σ) (f : factory) (ft : GoType)
    (d : Data) (sg : FuncSig) (w w1 : World σ) (values : List Value)
    (hval : f.Value = Value.mk ft d) (hsig : ft.sig = some sg)
    (hlen : f.parametersNames.length ≤ sg.ins.length)
    (hall : allResolve injector f.parametersNames w.state)
    (hin : f.invokeIn injector w = (.ok (values, none), w1)) :
    values.length = f.parametersNames.length ∧ ∀ x ∈ values, x.IsValid = true := by
  obtain ⟨values2, hin2, hvl, hat⟩ := invokeIn_ok injector f ft d sg w hval hsig hlen hall
  rw [hin] at hin2
  simp only [Prod.mk.injEq, Except.ok.injEq, and_true] at hin2
  obtain ⟨rfl, -⟩ := hin2
  refine ⟨hvl, ?_⟩
  intro x hx
  obtain ⟨j, hj, rfl⟩ := List.getElem_of_mem hx
  have hjn : j < f.parametersNames.length := hvl ▸ hj
  have hjl : j < (lookupValues injector f.parametersNames w.state).length := by
    rw [lookupValues_length]; exact hjn
  have hji : j < sg.ins.length := by omega
  have := hat j _ _ (List.getElem?_eq_getElem hjl) (List.getElem?_eq_getElem hji)
  rw [List.getElem?_eq_getElem hj, Option.some.injEq] at this
  rw [this]
  exact argumentOf_isValid _ _

/-- The world after `Call` on a function that is not nil, with one valid and assignable
argument per input: the code has run once, on the converted arguments. -/
theorem Call_runs_code {σ : Type} (code : Code σ) (t : GoType) (id : Nat) (sg : FuncSig)
    (input : List Value) (w : World σ) (hsig : t.sig = some sg)
    (hv : sg.variadic = false) (hlen : input.length = sg.ins.length)
    (hvalid : ∀ x ∈ input, x.IsValid = true)
    (hassign : firstNotAssignable sg.ins input = none) :
    ((Value.mk t (Data.fn id)).Call code input w).2.trace
      = w.trace ++ [Event.call id (List.zipWith assignTo sg.ins input)] := by
  have hany : input.any (fun x => !x.IsValid) = false := by
    simp only [List.any_eq_false, Bool.not_eq_true', Bool.not_eq_false]
    intro x hx
    simpa using hvalid x hx
  simp only [Value.Call, hsig, hv, hlen, hany, hassign]
  simp only [Bool.false_eq_true, if_false, lt_self_iff_false, gt_iff_lt]
  split <;> rfl

/-- The world after `provider` is the world after `Call` when the lookups succeed. -/
theorem provider_world_of_call {σ : Type} (T : GoType) (code : Code σ) (f : factory)
    (injector : Injector σ) (w w1 : World σ) (input : List Value)
    (hin : f.invokeIn injector w = (.ok (input, none), w1)) :
    (f.provider T code injector w).2 = (f.Value.Call code input w1).2 := by
  simp only [factory.provider, hin]
  cases hcall : f.Value.Call code input w1 with
  | mk res w2 =>
    cases res with
    | error p => rfl
    | ok out =>
      simp only
      split
      · rfl
      · split
        · rfl
        · split
          · split
            · rfl
            · split <;> rfl
          · rfl

/-- One invocation of `provider` whose lookups all succeed: the code of the factory runs
once, on the arguments resolved in this invocation, when `Call` accepts them. -/
theorem provider_runs_code_once {σ : Type} (T : GoType) (code : Code σ) (f : factory)
    (injector : Injector σ) (w : World σ) (t : GoType) (id : Nat) (sg : FuncSig)
    (hval : f.Value = Value.mk t (Data.fn id)) (hsig : t.sig = some sg)
    (hv : sg.variadic = false) (hlen : f.parametersNames.length = sg.ins.length)
    (hall : allResolve injector f.parametersNames w.state) :
    ∃ input w1, f.invokeIn injector w = (.ok (input, none), w1)
      ∧ (firstNotAssignable sg.ins input = none →
          callsOf (f.provider T code injector w).2.trace
            = callsOf w.trace ++ [(id, List.zipWith assignTo sg.ins input)]) := by
  obtain ⟨input, hin, -, -⟩ :=
    invokeIn_ok injector f t (Data.fn id) sg w hval hsig (by omega) hall
  obtain ⟨hil, hvalid⟩ :=
    invokeIn_ok_valid injector f t (Data.fn id) sg w _ input hval hsig (by omega) hall hin
  refine ⟨input, _, hin, ?_⟩
  intro hassign
  rw [provider_world_of_call T code f injector w _ input hin, hval,
    Call_runs_code code t id sg input _ hsig hv (by omega) hvalid hassign]
  simp [callsOf_append, callsOf_lookups, callsOf]

/-- C12, as stated, fails: for `func(int) int` and a container that holds a string under
the name `int`, the lookup succeeds, `Call` panics on the argument before the code of
the factory runs, and the factory is called zero times. -/
theorem provider_calls_nothing_on_mismatch :
    newFactory exNames intT (some (funcT [intT] [intT], Data.fn 1))
        = .ok { Value := Value.mk (funcT [intT] [intT]) (Data.fn 1),
                parametersNames := ["int"] }
      ∧ allResolve exInjector ["int"] [("int", some (stringT, Data.str "x"))]
      ∧ (factory.provider intT exCode
          { Value := Value.mk (funcT [intT] [intT]) (Data.fn 1), parametersNames := ["int"] }
          exInjector (exWorld [("int", some (stringT, Data.str "x"))])).1
        = .error (Panic.callNotAssignable stringT intT)
      ∧ callsOf (factory.provider intT exCode
          { Value := Value.mk (funcT [intT] [intT]) (Data.fn 1), parametersNames := ["int"] }
          exInjector (exWorld [("int", some (stringT, Data.str "x"))])).2.trace = [] :=
  ⟨rfl, ⟨rfl, trivial⟩, rfl, rfl⟩

/-- C12, amended: every invocation of a provider built from a function that is not nil
calls the wrapped factory exactly once when all parameter lookups succeed and `Call`
accepts the resolved arguments (each is assignable to the type of its parameter), and
zero times when a lookup fails; nothing is cached, so a second invocation calls the
factory again, with the arguments resolved at that invocation. -/
theorem provider_calls_factory_once {σ : Type} (nm : TypeNames) (T : GoType)
    (candidate : Any) (f : factory) (code : Code σ) (injector : Injector σ) (w : World σ)
    (t : GoType) (id : Nat) (sg : FuncSig)
    (hnew : newFactory nm T candidate = .ok f)
    (hval : f.Value = Value.mk t (Data.fn id)) (hsig : t.sig = some sg) :
    (allResolve injector f.parametersNames w.state →
        ∃ input w1, f.invokeIn injector w = (.ok (input, none), w1)
          ∧ (firstNotAssignable sg.ins input = none →
              callsOf (f.provider T code injector w).2.trace
                = callsOf w.trace ++ [(id, List.zipWith assignTo sg.ins input)]))
      ∧ (∀ (pre post : List String) (n : String) (e : GoType × Data),
          f.parametersNames = pre ++ n :: post →
          allResolve injector pre w.state →
          (injector.invokeNamed n (lookupsState injector pre w.state)).1.2 = some e →
          callsOf (f.provider T code injector w).2.trace = callsOf w.trace)
      ∧ (allResolve injector f.parametersNames w.state →
          allResolve injector f.parametersNames (f.provider T code injector w).2.state →
          ∃ input1 w1 input2 w2,
            f.invokeIn injector w = (.ok (input1, none), w1)
            ∧ f.invokeIn injector (f.provider T code injector w).2 = (.ok (input2, none), w2)
            ∧ (firstNotAssignable sg.ins input1 = none →
                firstNotAssignable sg.ins input2 = none →
                callsOf (f.provider T code injector (f.provider T code injector w).2).2.trace
                  = callsOf w.trace ++ [(id, List.zipWith assignTo sg.ins input1),
                      (id, List.zipWith assignTo sg.ins input2)])) := by
  obtain ⟨t2, d2, sg2, -, hval2, hsig2, hv, -, hpn⟩ := newFactory_ok nm T candidate f hnew
  rw [hval] at hval2
  simp only [Value.mk.injEq] at hval2
  obtain ⟨rfl, -⟩ := hval2
  rw [hsig] at hsig2
  simp only [Option.some.injEq] at hsig2
  subst hsig2
  have hlen : f.parametersNames.length = sg.ins.length := by simp [hpn]
  refine ⟨?_, ?_, ?_⟩
  · intro hall
    exact provider_runs_code_once T code f injector w t id sg hval hsig hv hlen hall
  · intro pre post n e hnames hpre hfail
    have hin := invokeIn_fail injector f t (Data.fn id) sg w hval hsig (by omega) pre post
      n e hnames hpre hfail
    simp only [factory.provider, hin]
    simp [callsOf_append, callsOf_lookups, callsOf]
  · intro hall1 hall2
    obtain ⟨input1, w1, hin1, h1⟩ :=
      provider_runs_code_once T code f injector w t id sg hval hsig hv hlen hall1
    obtain ⟨input2, w2, hin2, h2⟩ :=
      provider_runs_code_once T code f injector (f.provider T code injector w).2 t id sg
        hval hsig hv hlen hall2
    refine ⟨input1, w1, input2, w2, hin1, hin2, ?_⟩
    intro ha1 ha2
    rw [h2 ha2, h1 ha1]
    simp

/-- Witness of the amended C12: `func(int) (int, error)` in a container that holds `1`
for `int`: one invocation of the provider makes one call, on the argument `1`. -/
theorem provider_calls_factory_once_witness :
    callsOf (factory.provider intT exCode
        { Value := Value.mk (funcT [intT] [intT, errorType]) (Data.fn 1),
          parametersNames := ["int"] }
        exInjector (exWorld [("int", some (intT, Data.int 1))])).2.trace
      = callsOf (exWorld [("int", some (intT, Data.int 1))]).trace
        ++ [(1, List.zipWith assignTo [intT] [Value.mk intT (Data.int 1)])] := by
  obtain ⟨input, w1, hin, h⟩ :=
    (provider_calls_factory_once exNames intT
      (some (funcT [intT] [intT, errorType], Data.fn 1))
      { Value := Value.mk (funcT [intT] [intT, errorType]) (Data.fn 1),
        parametersNames := ["int"] } exCode exInjector
      (exWorld [("int", some (intT, Data.int 1))])
      (funcT [intT] [intT, errorType]) 1 ⟨[intT], [intT, errorType], false⟩
      rfl rfl rfl).1 ⟨rfl, trivial⟩
  have hin0 : factory.invokeIn
      { Value := Value.mk (funcT [intT] [intT, errorType]) (Data.fn 1),
        parametersNames := ["int"] }
      exInjector (exWorld [("int", some (intT, Data.int 1))])
      = (.ok ([Value.mk intT (Data.int 1)], none),
          { state := [("int", some (intT, Data.int 1))],
            trace := [Event.lookup "int"] }) := rfl
  rw [hin0] at hin
  simp only [Prod.mk.injEq, Except.ok.injEq, and_true] at hin
  obtain ⟨rfl, rfl⟩ := hin
  exact h rfl

/-! ## The canonical names -/

theorem encodeNat_inj : ∀ (n m : Nat) (r r2 : List Char),
    encodeNat n ++ r = encodeNat m ++ r2 → n = m ∧ r = r2
  | 0, 0, r, r2 => by simp [encodeNat]
  | 0, m + 1, r, r2 => by simp [encodeNat, List.replicate_succ]
  | n + 1, 0, r, r2 => by simp [encodeNat, List.replicate_succ]
  | n + 1, m + 1, r, r2 => by
      intro h
      have h2 : encodeNat n ++ r = encodeNat m ++ r2 := by
        simpa [encodeNat, List.replicate_succ] using h
      obtain ⟨h3, h4⟩ := encodeNat_inj n m r r2 h2
      exact ⟨by omega, h4⟩

theorem encodeString_inj (s s2 : String) (r r2 : List Char)
    (h : encodeString s ++ r = encodeString s2 ++ r2) : s = s2 ∧ r = r2 := by
  simp only [encodeString, List.append_assoc] at h
  obtain ⟨hlen, hrest⟩ := encodeNat_inj _ _ _ _ h
  obtain ⟨hd, hr⟩ := List.append_inj hrest hlen
  exact ⟨String.ext hd, hr⟩

theorem encodeStrings_inj : ∀ (l l2 : List String) (r r2 : List Char),
    encodeStrings l ++ r = encodeStrings l2 ++ r2 → l = l2 ∧ r = r2
  | [], [], r, r2 => by simp [encodeStrings]
  | [], _ :: _, r, r2 => by simp [encodeStrings]
  | _ :: _, [], r, r2 => by simp [encodeStrings]
  | s :: l, s2 :: l2, r, r2 => by
      intro h
      simp only [encodeStrings, List.cons_append, List.append_assoc, List.cons.injEq,
        true_and] at h
      obtain ⟨hs, h2⟩ := encodeString_inj s s2 _ _ h
      obtain ⟨hl, hr⟩ := encodeStrings_inj l l2 r r2 h2
      exact ⟨by rw [hs, hl], hr⟩

theorem encodeBasic_inj (b c : Basic) (h : encodeBasic b = encodeBasic c) : b = c := by
  cases b <;> cases c <;> first | rfl | (simp [encodeBasic] at h)

mutual
/-- The description of a type is a prefix code: it determines the type and what
follows it. -/
theorem encodeType_inj : ∀ (t u : GoType) (r r2 : List Char),
    encodeType t ++ r = encodeType u ++ r2 → t = u ∧ r = r2
  | .basic b, u, r, r2 => by
      intro h
      cases u <;> simp only [encodeType, List.cons_append, List.cons.injEq] at h <;>
        try (exact absurd h.1 (by decide))
      obtain ⟨-, hb, hr⟩ := h
      exact ⟨by rw [encodeBasic_inj _ _ hb], by simpa using hr⟩
  | .named n t ms, u, r, r2 => by
      intro h
      cases u <;> simp only [encodeType, List.cons_append, List.cons.injEq] at h <;>
        try (exact absurd h.1 (by decide))
      rename_i n2 t2 ms2
      obtain ⟨-, h⟩ := h
      simp only [List.append_assoc] at h
      obtain ⟨hn, h⟩ := encodeString_inj _ _ _ _ h
      obtain ⟨ht, h⟩ := encodeType_inj t t2 _ _ h
      obtain ⟨hm, hr⟩ := encodeStrings_inj _ _ _ _ h
      exact ⟨by rw [hn, ht, hm], hr⟩
  | .pointer t, u, r, r2 => by
      intro h
      cases u <;> simp only [encodeType, List.cons_append, List.cons.injEq] at h <;>
        try (exact absurd h.1 (by decide))
      rename_i t2
      obtain ⟨ht, hr⟩ := encodeType_inj t t2 _ _ h.2
      exact ⟨by rw [ht], hr⟩
  | .slice t, u, r, r2 => by
      intro h
      cases u <;> simp only [encodeType, List.cons_append, List.cons.injEq] at h <;>
        try (exact absurd h.1 (by decide))
      rename_i t2
      obtain ⟨ht, hr⟩ := encodeType_inj t t2 _ _ h.2
      exact ⟨by rw [ht], hr⟩
  | .interface ms, u, r, r2 => by
      intro h
      cases u <;> simp only [encodeType, List.cons_append, List.cons.injEq] at h <;>
        try (exact absurd h.1 (by decide))
      obtain ⟨hm, hr⟩ := encodeStrings_inj _ _ _ _ h.2
      exact ⟨by rw [hm], hr⟩
  | .func ins outs v, u, r, r2 => by
      intro h
      cases u <;> simp only [encodeType, List.cons_append, List.cons.injEq] at h <;>
        try (exact absurd h.1 (by decide))
      rename_i ins2 outs2 v2
      obtain ⟨-, hv, h⟩ := h
      simp only [List.append_assoc] at h
      obtain ⟨hi, h⟩ := encodeTypes_inj ins ins2 _ _ h
      obtain ⟨ho, hr⟩ := encodeTypes_inj outs outs2 _ _ h
      have hv2 : v = v2 := by
        cases v <;> cases v2 <;> first | rfl | (exact absurd hv (by decide))
      exact ⟨by rw [hi, ho, hv2], hr⟩
  | .struct ns fs, u, r, r2 => by
      intro h
      cases u <;> simp only [encodeType, List.cons_append, List.cons.injEq] at h <;>
        try (exact absurd h.1 (by decide))
      rename_i ns2 fs2
      obtain ⟨-, h⟩ := h
      simp only [List.append_assoc] at h
      obtain ⟨hn, h⟩ := encodeStrings_inj _ _ _ _ h
      obtain ⟨hf, hr⟩ := encodeTypes_inj fs fs2 _ _ h
      exact ⟨by rw [hn, hf], hr⟩
/-- The description of a sequence of types is a prefix code. -/
theorem encodeTypes_inj : ∀ (ts us : GoTypes) (r r2 : List Char),
    encodeTypes ts ++ r = encodeTypes us ++ r2 → ts = us ∧ r = r2
  | .nil, us, r, r2 => by
      intro h
      cases us <;> simp only [encodeTypes, List.cons_append, List.cons.injEq] at h
      · exact ⟨rfl, by simpa using h.2⟩
      · exact absurd h.1 (by decide)
  | .cons t ts, us, r, r2 => by
      intro h
      cases us <;> simp only [encodeTypes, List.cons_append, List.cons.injEq] at h
      · exact absurd h.1 (by decide)
      · rename_i t2 ts2
        obtain ⟨-, h⟩ := h
        simp only [List.append_assoc] at h
        obtain ⟨ht, h⟩ := encodeType_inj t t2 _ _ h
        obtain ⟨hts, hr⟩ := encodeTypes_inj ts ts2 _ _ h
        exact ⟨by rw [ht, hts], hr⟩
end

/-- The modelled canonical name determines the type. -/
theorem canonicalName_inj (t u : GoType) (h : canonicalName t = canonicalName u) :
    t = u := by
  have hd : encodeType t = encodeType u := congrArg String.data h
  exact (encodeType_inj t u [] [] (by simpa using hd)).1

theorem GoType.ne_pointer (t : GoType) : t ≠ GoType.pointer t := by
  intro h
  have := congrArg sizeOf h
  simp at this

theorem GoType.named_ne_underlying (n : String) (u : GoType) (ms : List String) :
    GoType.named n u ms ≠ u := by
  intro h
  have := congrArg sizeOf h
  simp at this
  omega

/-- C13: with the modelled canonical namer as lookup key, the name of a type is
deterministic and injective on distinguishable types: two types have the same name
exactly when they are the same type; in particular `T` and `*T`, a named type and its
underlying type, two distinctly named types with identical structure, and `int` and
`int64` have different names; hence `getParametersNames` never maps two distinguishable
parameter types to the same lookup key. -/
theorem canonical_names_distinguish (nm : TypeNames)
    (hnm : nm.getReflectType = canonicalName) :
    (∀ t u : GoType, nm.getReflectType t = nm.getReflectType u ↔ t = u)
      ∧ (∀ t : GoType, nm.getReflectType t ≠ nm.getReflectType (GoType.pointer t))
      ∧ (∀ (n : String) (u : GoType) (ms : List String),
          nm.getReflectType (GoType.named n u ms) ≠ nm.getReflectType u)
      ∧ (∀ (n n2 : String) (u : GoType) (ms : List String), n ≠ n2 →
          nm.getReflectType (GoType.named n u ms)
            ≠ nm.getReflectType (GoType.named n2 u ms))
      ∧ nm.getReflectType (GoType.basic Basic.int)
          ≠ nm.getReflectType (GoType.basic Basic.int64)
      ∧ (∀ (ft1 ft2 : GoType) (names1 names2 : List String) (i j : Nat) (ti tj : GoType)
          (key : String),
          getParametersNames nm ft1 = .ok names1 → getParametersNames nm ft2 = .ok names2 →
          ft1.In i = .ok ti → ft2.In j = .ok tj →
          names1[i]? = some key → names2[j]? = some key → ti = tj) := by
  have hinj : ∀ t u : GoType, nm.getReflectType t = nm.getReflectType u → t = u := by
    intro t u h
    rw [hnm] at h
    exact canonicalName_inj t u h
  refine ⟨fun t u => ⟨hinj t u, fun h => by rw [h]⟩, ?_, ?_, ?_, ?_, ?_⟩
  · intro t h
    exact GoType.ne_pointer t (hinj _ _ h)
  · intro n u ms h
    exact GoType.named_ne_underlying n u ms (hinj _ _ h)
  · intro n n2 u ms hne h
    have := hinj _ _ h
    simp only [GoType.named.injEq] at this
    exact hne this.1
  · intro h
    have := hinj _ _ h
    simp at this
  · intro ft1 ft2 names1 names2 i j ti tj key h1 h2 hi hj hk1 hk2
    have e1 := getParametersNames_getElem nm ft1 names1 i ti h1 hi
    have e2 := getParametersNames_getElem nm ft2 names2 j tj h2 hj
    rw [hk1] at e1
    rw [hk2] at e2
    simp only [Option.some.injEq] at e1 e2
    exact hinj _ _ (e1.symm.trans e2)

/-- Witness of C13: with the modelled namer, the first parameter of `func(int)` and
that of `func(*int)` get different keys. -/
theorem canonical_names_distinguish_witness :
    (⟨showType, canonicalName⟩ : TypeNames).getReflectType intT
      ≠ (⟨showType, canonicalName⟩ : TypeNames).getReflectType (GoType.pointer intT) :=
  (canonical_names_distinguish ⟨showType, canonicalName⟩ rfl).2.1 intT

end Dofactory
